import Mathlib

/-
Verification of the merge engine in src/core/ConfigMerger.ts.

The embedding models JavaScript plain objects with string keys as
insertion-ordered association lists.  Absent optional properties
(TypeScript undefined) are modelled as Option.none.  The two sources of
runtime nondeterminism in the merger, Date.now() and
ConfigurationManager.validateConfig, are passed in explicitly: Date.now()
as a natural number argument and validateConfig as a function argument,
so every theorem quantifies over them.
-/

/-- Primitive JSON-like values stored in metadata objects. -/
inductive JVal where
  | str : String → JVal
  | num : Nat → JVal
  | boolean : Bool → JVal
deriving DecidableEq, Repr

/-- A metadata object: string keys to primitive values, insertion ordered. -/
abbrev JObj := List (String × JVal)

/-- An env object (Record of string to string), insertion ordered. -/
abbrev EnvObj := List (String × String)

/-- Property lookup o[k] on a JS object. -/
def objGet {V : Type} (o : List (String × V)) (k : String) : Option V :=
  (o.find? (fun p => p.1 == k)).map Prod.snd

/-- Property assignment o[k] = v: updates the existing key in place, or
appends a new key at the end, as JS objects do. -/
def objSet {V : Type} (o : List (String × V)) (k : String) (v : V) : List (String × V) :=
  if (o.find? (fun p => p.1 == k)).isSome then
    o.map (fun p => if p.1 = k then (k, v) else p)
  else o ++ [(k, v)]

/-- Object spread of two objects: the keys of t in order with values taken
from s where s also has the key, followed by the keys of s that are not
in t, in order. -/
def objSpread {V : Type} (t s : List (String × V)) : List (String × V) :=
  t.map (fun p =>
    match objGet s p.1 with
    | some v => (p.1, v)
    | none => p) ++
  s.filter (fun p => (objGet t p.1).isNone)

/-- MCPServiceConfig from src/types: command plus optional args, env,
disabled, cwd, timeout and metadata. -/
structure MCPServiceConfig where
  command : String
  args : Option (List String)
  env : Option EnvObj
  disabled : Option Bool
  cwd : Option String
  timeout : Option Nat
  metadata : Option JObj
deriving DecidableEq, Repr

instance : Inhabited MCPServiceConfig :=
  ⟨⟨"", none, none, none, none, none, none⟩⟩

/-- MCPConfig from src/types: the mcpServers record (keys are service
names) plus optional version, metadata and schema reference.  mcpServers
is Option because the code defends against it being undefined. -/
structure MCPConfig where
  mcpServers : Option (List (String × MCPServiceConfig))
  version : Option String
  metadata : Option JObj
  schema : Option String
deriving DecidableEq, Repr

/-- ConfigConflict from src/types, restricted to the fields the merger
writes.  The nested values object is flattened into valuesSource and
valuesTarget; the optional resolution field is never set by the merger. -/
structure ConfigConflict where
  id : String
  serviceName : String
  type : String
  sourceConfig : MCPServiceConfig
  targetConfig : MCPServiceConfig
  description : String
  path : String
  valuesSource : MCPServiceConfig
  valuesTarget : MCPServiceConfig
deriving DecidableEq, Repr

/-- MergeStrategy enum from ConfigMerger.ts. -/
inductive MergeStrategy where
  | overwrite
  | skip
  | merge
  | prompt
deriving DecidableEq, Repr

/-- Resolution choices of the optional conflictResolution callback. -/
inductive ConflictChoice where
  | source
  | target
  | merge

/-- MergeOptions from ConfigMerger.ts.  The conflictResolution callback is
declared but never consulted by the merger. -/
structure MergeOptions where
  strategy : MergeStrategy
  preserveMetadata : Bool
  createBackup : Bool
  validateResult : Bool
  conflictResolution : Option (ConfigConflict → ConflictChoice)

/-- Validation error with the message field the merger reads (the other
optional diagnostic fields of ValidationError are never read here). -/
structure ValidationError where
  field : String
  message : String

/-- Validation warning with the message field the merger reads. -/
structure ValidationWarning where
  field : String
  message : String

/-- ValidationResult from src/types. -/
structure ValidationResult where
  isValid : Bool
  errors : List ValidationError
  warnings : List ValidationWarning

/-- Stats block of a MergeResult. -/
structure MergeStats where
  totalServices : Nat
  addedServices : Nat
  updatedServices : Nat
  skippedServices : Nat
  conflictServices : Nat
deriving DecidableEq, Repr

/-- MergeResult from ConfigMerger.ts. -/
structure MergeResult where
  success : Bool
  config : Option MCPConfig
  conflicts : List ConfigConflict
  errors : List String
  warnings : List String
  stats : MergeStats
deriving DecidableEq, Repr

/-- areArraysEqual: JS truthiness makes an empty array truthy, so only
undefined/null take the both-absent fast path; an absent list against a
present (possibly empty) list is unequal.  With both present the lengths
must match and elements must agree position by position. -/
def areArraysEqual (arr1 arr2 : Option (List String)) : Bool :=
  match arr1, arr2 with
  | none, none => true
  | none, some _ => false
  | some _, none => false
  | some a1, some a2 =>
      a1.length == a2.length && (a1.zip a2).all (fun p => p.1 == p.2)

/-- areObjectsEqual: both absent is equal, one absent is unequal,
otherwise the key counts must match and every key of the first must map
to the same value in the second. -/
def areObjectsEqual (obj1 obj2 : Option EnvObj) : Bool :=
  match obj1, obj2 with
  | none, none => true
  | none, some _ => false
  | some _, none => false
  | some o1, some o2 =>
      o1.length == o2.length && o1.all (fun p => objGet o2 p.1 == some p.2)

/-- areServicesEqual: command, args, env and disabled must agree; cwd,
timeout and metadata are not compared. -/
def areServicesEqual (service1 service2 : MCPServiceConfig) : Bool :=
  service1.command == service2.command &&
  areArraysEqual service1.args service2.args &&
  areObjectsEqual service1.env service2.env &&
  service1.disabled == service2.disabled

/-- Split of a character list at every dot, as version.split does: a
string with n dots yields n+1 segments, empty segments included. -/
def splitChars : List Char → List (List Char)
  | [] => [[]]
  | c :: rest =>
      match splitChars rest with
      | [] => [[c]]
      | seg :: segs =>
          if c = '.' then [] :: seg :: segs else (c :: seg) :: segs

/-- Whitespace and line-terminator code points that StringToNumber strips
before parsing: ASCII whitespace, NBSP, the Unicode space separators, the
line and paragraph separators and the BOM. -/
def isStrWhiteSpaceChar (c : Char) : Bool :=
  [9, 10, 11, 12, 13, 32, 160, 0x1680, 0x2000, 0x2001, 0x2002, 0x2003, 0x2004,
    0x2005, 0x2006, 0x2007, 0x2008, 0x2009, 0x200A, 0x2028, 0x2029, 0x202F,
    0x205F, 0x3000, 0xFEFF].contains c.toNat

/-- Leading and trailing whitespace stripped, as StringToNumber does. -/
def trimWS (cs : List Char) : List Char :=
  ((cs.dropWhile isStrWhiteSpaceChar).reverse.dropWhile isStrWhiteSpaceChar).reverse

/-- Value of a decimal digit string (most significant first). -/
def digitsVal (cs : List Char) : Nat :=
  cs.foldl (fun acc c => acc * 10 + (c.toNat - 48)) 0

/-- Value of one digit in a radix literal (0-9, a-f, A-F). -/
def hexDigitVal (c : Char) : Nat :=
  if c.isDigit then c.toNat - 48
  else if 'a' ≤ c then c.toNat - 87
  else c.toNat - 55

/-- Value of a digit string in the given radix. -/
def radixVal (radix : Nat) (cs : List Char) : Nat :=
  cs.foldl (fun acc c => acc * radix + hexDigitVal c) 0

/-- Hexadecimal digit test for 0x literals. -/
def isHexDigit (c : Char) : Bool :=
  c.isDigit || ('a' ≤ c && c ≤ 'f') || ('A' ≤ c && c ≤ 'F')

/-- Octal digit test for 0o literals. -/
def isOctDigit (c : Char) : Bool :=
  '0' ≤ c && c ≤ '7'

/-- Binary digit test for 0b literals. -/
def isBinDigit (c : Char) : Bool :=
  c = '0' || c = '1'

/-- Power by squaring with explicit fuel (the exponent itself suffices),
so evaluation has logarithmic depth; equal to b ^ e (jsPow_spec). -/
def powFuel (b : Nat) : Nat → Nat → Nat
  | 0, _ => 1
  | fuel + 1, e =>
      if e = 0 then 1
      else
        let h := powFuel b fuel (e / 2)
        if e % 2 = 0 then h * h else b * (h * h)

/-- Power by squaring; equal to b ^ e. -/
def jsPow (b e : Nat) : Nat := powFuel b e e

/-- Exact mathematical value of a JS number literal before IEEE-754
rounding: NaN, a signed infinity, or a signed exact magnitude num/den. -/
inductive JSExact where
  | nan
  | inf (neg : Bool)
  | val (neg : Bool) (num den : Nat)
deriving DecidableEq, Repr

/-- Exponent suffix of a decimal literal: empty means exponent 0, else
e or E followed by an optionally signed nonempty digit string. -/
def parseExponent : List Char → Option Int
  | [] => some 0
  | c :: rest =>
      if c = 'e' ∨ c = 'E' then
        match rest with
        | '+' :: ds =>
            if !ds.isEmpty && ds.all Char.isDigit then some (digitsVal ds) else none
        | '-' :: ds =>
            if !ds.isEmpty && ds.all Char.isDigit then some (-(digitsVal ds : Int)) else none
        | ds =>
            if !ds.isEmpty && ds.all Char.isDigit then some (digitsVal ds) else none
      else none

/-- Unsigned decimal literal digits.digits with optional exponent; the
value is N times ten to the returned power.  At least one digit must be
present around the dot. -/
def parseUnsignedDec (cs : List Char) : Option (Nat × Int) :=
  let intd := cs.takeWhile Char.isDigit
  let rest1 := cs.drop intd.length
  match rest1 with
  | '.' :: rest2 =>
      let fracd := rest2.takeWhile Char.isDigit
      let rest3 := rest2.drop fracd.length
      if intd.isEmpty && fracd.isEmpty then none
      else
        match parseExponent rest3 with
        | some ex => some (digitsVal (intd ++ fracd), ex - (fracd.length : Int))
        | none => none
  | _ =>
      if intd.isEmpty then none
      else
        match parseExponent rest1 with
        | some ex => some (digitsVal intd, ex)
        | none => none

/-- Optionally signed decimal literal or Infinity. -/
def jsDecOrInf (cs : List Char) : JSExact :=
  let signBody : Bool × List Char :=
    match cs with
    | c :: r => if c = '+' then (false, r) else if c = '-' then (true, r) else (false, c :: r)
    | [] => (false, [])
  let neg := signBody.1
  let body := signBody.2
  if body = ['I', 'n', 'f', 'i', 'n', 'i', 't', 'y'] then JSExact.inf neg
  else
    match parseUnsignedDec body with
    | some (n, ex) =>
        if 0 ≤ ex then JSExact.val neg (n * jsPow 10 ex.toNat) 1
        else JSExact.val neg n (jsPow 10 (-ex).toNat)
    | none => JSExact.nan

/-- StringToNumber: trim whitespace; empty is 0; unsigned 0x/0o/0b radix
literals; otherwise an optionally signed decimal literal or Infinity;
anything else is NaN. -/
def jsNumberOfChars (cs0 : List Char) : JSExact :=
  match trimWS cs0 with
  | [] => JSExact.val false 0 1
  | c0 :: rest =>
      match rest with
      | c :: ds =>
          if c0 = '0' ∧ (c = 'x' ∨ c = 'X') then
            if !ds.isEmpty && ds.all isHexDigit then JSExact.val false (radixVal 16 ds) 1
            else JSExact.nan
          else if c0 = '0' ∧ (c = 'o' ∨ c = 'O') then
            if !ds.isEmpty && ds.all isOctDigit then JSExact.val false (radixVal 8 ds) 1
            else JSExact.nan
          else if c0 = '0' ∧ (c = 'b' ∨ c = 'B') then
            if !ds.isEmpty && ds.all isBinDigit then JSExact.val false (radixVal 2 ds) 1
            else JSExact.nan
          else jsDecOrInf (c0 :: c :: ds)
      | [] => jsDecOrInf [c0]

/-- One IEEE-754 double as seen by the comparison loop: a signed infinity
or a finite value given exactly as an integer count of units of 2^-1074
(every finite double is such a multiple; NaN is coerced away by the
loop's fallback before any comparison). -/
inductive DoubleVal where
  | negInf
  | fin (units : Int)
  | posInf
deriving DecidableEq, Repr

/-- The double 0, also the fallback value of the comparison loop. -/
def dblZero : DoubleVal := DoubleVal.fin 0

/-- Strict order on the compared doubles: minus infinity below every
finite value below plus infinity, finite values by exact value. -/
def dlt : DoubleVal → DoubleVal → Bool
  | DoubleVal.negInf, DoubleVal.negInf => false
  | DoubleVal.negInf, _ => true
  | DoubleVal.fin _, DoubleVal.negInf => false
  | DoubleVal.fin a, DoubleVal.fin b => a < b
  | DoubleVal.fin _, DoubleVal.posInf => true
  | DoubleVal.posInf, _ => false

/-- Bit length with explicit fuel (enough fuel is the number itself), so
the kernel can evaluate it. -/
def bitLenAux : Nat → Nat → Nat
  | 0, _ => 0
  | fuel + 1, n => if n = 0 then 0 else bitLenAux fuel (n / 2) + 1

/-- Number of binary digits of n, 0 for 0. -/
def bitLen (n : Nat) : Nat := bitLenAux n n

/-- Whether two to the e-th power is at most num/den (both positive). -/
def pow2LeRat (e : Int) (num den : Nat) : Bool :=
  if 0 ≤ e then den * jsPow 2 e.toNat ≤ num else den ≤ num * jsPow 2 (-e).toNat

/-- Floor of the base-two logarithm of num/den (both positive): the bit
lengths give the answer up to one, and one comparison settles it. -/
def ratFloorLog2 (num den : Nat) : Int :=
  let e0 : Int := (bitLen num : Int) - (bitLen den : Int)
  if pow2LeRat e0 num den then e0 else e0 - 1

/-- Nearest natural to A/B (B positive), ties to even. -/
def roundNearestEven (A B : Nat) : Nat :=
  let q := A / B
  let r := A % B
  if 2 * r < B then q
  else if B < 2 * r then q + 1
  else if q % 2 = 0 then q else q + 1

/-- Round the positive rational num/den to the nearest double: scale so
the significand has 53 bits (clamped at the subnormal range), round to
nearest with ties to even, renormalize a carry, and overflow to plus
infinity past the largest finite double. -/
def roundPosToDouble (num den : Nat) : DoubleVal :=
  let e := ratFloorLog2 num den
  let k : Int := max (e - 52) (-1074)
  let A := num * jsPow 2 (-k).toNat
  let B := den * jsPow 2 k.toNat
  let n := roundNearestEven A B
  let nk : Nat × Int := if n = jsPow 2 53 then (jsPow 2 52, k + 1) else (n, k)
  let units : Nat := nk.1 * jsPow 2 (nk.2 + 1074).toNat
  if (jsPow 2 53 - 1) * jsPow 2 2045 < units then DoubleVal.posInf
  else DoubleVal.fin (units : Int)

/-- Round a signed exact magnitude to the nearest double; both zeros of
the source collapse to 0 here, which the loop's fallback does anyway. -/
def roundToDouble (neg : Bool) (num den : Nat) : DoubleVal :=
  if num = 0 then DoubleVal.fin 0
  else if neg then
    match roundPosToDouble num den with
    | DoubleVal.posInf => DoubleVal.negInf
    | DoubleVal.fin u => DoubleVal.fin (-u)
    | DoubleVal.negInf => DoubleVal.negInf
  else roundPosToDouble num den

/-- Value of one version segment as read by the comparison loop: the
segment goes through Number (StringToNumber grammar, then rounding to the
nearest double) and then through the fallback v1Parts[i] || 0, which
turns NaN (and both zeros) into 0 and keeps every other value, negative
numbers and infinities included. -/
def parseVersionPart (cs : List Char) : DoubleVal :=
  match jsNumberOfChars cs with
  | JSExact.nan => dblZero
  | JSExact.inf neg => if neg then DoubleVal.negInf else DoubleVal.posInf
  | JSExact.val neg num den => roundToDouble neg num den

/-- Version string split on dots and converted segment-wise by Number. -/
def versionParts (v : String) : List DoubleVal :=
  (splitChars v.toList).map parseVersionPart

/-- Tail of the comparison loop once the first version ran out of
segments: its positions read as 0, so each remaining segment of the
second version is compared against 0 and the first one differing from 0
decides. -/
def cmpZeros : List DoubleVal → Int
  | [] => 0
  | y :: ys =>
      if dlt y dblZero then 1 else if dlt dblZero y then -1 else cmpZeros ys

/-- Segment-by-segment comparison loop of compareVersions: positions past
the end of a list read as 0 (v1Parts[i] || 0) and the first position
whose values differ decides. -/
def cmpParts : List DoubleVal → List DoubleVal → Int
  | [], b => cmpZeros b
  | x :: xs, [] =>
      if dlt dblZero x then 1 else if dlt x dblZero then -1 else cmpParts xs []
  | x :: xs, y :: ys =>
      if dlt y x then 1 else if dlt x y then -1 else cmpParts xs ys

/-- compareVersions from ConfigMerger.ts. -/
def compareVersions (version1 version2 : String) : Int :=
  cmpParts (versionParts version1) (versionParts version2)

/-- JS truthiness of an optional string: undefined and the empty string
are falsy. -/
def strTruthy : Option String → Bool
  | none => false
  | some s => !s.isEmpty

/-- Conflicting field names among command, args, env and disabled, in the
push order of the source loop. -/
def conflictFields (sourceService targetService : MCPServiceConfig) : List String :=
  (if sourceService.command == targetService.command then [] else ["command"]) ++
  (if areArraysEqual sourceService.args targetService.args then [] else ["args"]) ++
  (if areObjectsEqual sourceService.env targetService.env then [] else ["env"]) ++
  (if sourceService.disabled == targetService.disabled then [] else ["disabled"])

/-- detectServiceConflict: collects the conflicting field names among
command, args, env and disabled; returns a ConfigConflict when the list
is nonempty.  The now argument models the Date.now() in the conflict id. -/
def detectServiceConflict (now : Nat) (serviceName : String)
    (sourceService targetService : MCPServiceConfig) : Option ConfigConflict :=
  let conflicts : List String := conflictFields sourceService targetService
  if conflicts.isEmpty then
    none
  else
    some {
      id := "conflict_" ++ serviceName ++ "_" ++ toString now,
      serviceName := serviceName,
      type := "different-config",
      sourceConfig := sourceService,
      targetConfig := targetService,
      description := "服务 \"" ++ serviceName ++ "\" 在以下字段存在冲突: " ++
        String.intercalate ", " conflicts,
      path := "",
      valuesSource := sourceService,
      valuesTarget := targetService }

/-- mergeMetadata: spread target then source then stamp lastModified with
Date.now(); undefined only when both inputs are undefined. -/
def mergeMetadata (now : Nat) (sourceMeta targetMeta : Option JObj) : Option JObj :=
  match sourceMeta, targetMeta with
  | none, none => none
  | _, _ =>
      some (objSet (objSpread (targetMeta.getD []) (sourceMeta.getD []))
        "lastModified" (JVal.num now))

/-- mergeServiceConfigs: field-wise spread of target then source, then the
env objects are spread-merged when either side has one, then metadata is
merged when preserveMetadata is set. -/
def mergeServiceConfigs (now : Nat) (sourceService targetService : MCPServiceConfig)
    (preserveMetadata : Bool) : MCPServiceConfig :=
  let merged : MCPServiceConfig := {
    command := sourceService.command,
    args := sourceService.args <|> targetService.args,
    env := sourceService.env <|> targetService.env,
    disabled := sourceService.disabled <|> targetService.disabled,
    cwd := sourceService.cwd <|> targetService.cwd,
    timeout := sourceService.timeout <|> targetService.timeout,
    metadata := sourceService.metadata <|> targetService.metadata }
  let merged :=
    if sourceService.env.isSome || targetService.env.isSome then
      { merged with
        env := some (objSpread (targetService.env.getD []) (sourceService.env.getD [])) }
    else merged
  if preserveMetadata then
    { merged with metadata := mergeMetadata now sourceService.metadata targetService.metadata }
  else merged

/-- Action component of a per-service merge outcome. -/
inductive MergeAction where
  | add
  | update
  | skip
deriving DecidableEq, Repr

/-- Return value of mergeService. -/
structure MergeServiceResult where
  action : MergeAction
  config : Option MCPServiceConfig
  conflict : Option ConfigConflict
  warnings : List String
deriving Repr

/-- mergeService from ConfigMerger.ts: add when the target has no such
service, update when there is no conflict, otherwise dispatch on the
strategy; prompt (and the impossible default case, which is identical)
defers and hands the conflict back. -/
def mergeService (now : Nat) (serviceName : String) (sourceService : MCPServiceConfig)
    (targetService : Option MCPServiceConfig) (options : MergeOptions) : MergeServiceResult :=
  match targetService with
  | none =>
      { action := .add, config := some sourceService, conflict := none, warnings := [] }
  | some target =>
      match detectServiceConflict now serviceName sourceService target with
      | none =>
          { action := .update,
            config := some (mergeServiceConfigs now sourceService target options.preserveMetadata),
            conflict := none, warnings := [] }
      | some conflict =>
          match options.strategy with
          | .overwrite =>
              { action := .update, config := some sourceService, conflict := none,
                warnings := ["服务 \"" ++ serviceName ++ "\" 已被覆盖"] }
          | .skip =>
              { action := .skip, config := none, conflict := none,
                warnings := ["跳过冲突的服务 \"" ++ serviceName ++ "\""] }
          | .merge =>
              { action := .update,
                config := some (mergeServiceConfigs now sourceService target options.preserveMetadata),
                conflict := none,
                warnings := ["强制合并服务 \"" ++ serviceName ++ "\"，可能存在配置冲突"] }
          | .prompt =>
              { action := .skip, config := none, conflict := some conflict, warnings := [] }

/-- Accumulated state of the merge loop over the source services: the
working server map plus the conflicts, warnings and stats gathered so far. -/
structure LoopState where
  servers : List (String × MCPServiceConfig)
  conflicts : List ConfigConflict
  warnings : List String
  stats : MergeStats
deriving Repr

/-- Loop-body update of the stats: exactly one counter is incremented,
conflict taking precedence over the action. -/
def stepStats (stats : MergeStats) (r : MergeServiceResult) : MergeStats :=
  match r.conflict with
  | some _ => { stats with conflictServices := stats.conflictServices + 1 }
  | none =>
      match r.action with
      | .add => { stats with addedServices := stats.addedServices + 1 }
      | .update => { stats with updatedServices := stats.updatedServices + 1 }
      | .skip => { stats with skippedServices := stats.skippedServices + 1 }

/-- Loop-body update of the working server map: add and update (without a
conflict) write the returned config under the service name; skip and a
returned conflict leave the map unchanged.  The config is always present
when the action is add or update (the source uses a non-null assertion
there), so the fallback value of getD is never used. -/
def stepServers (servers : List (String × MCPServiceConfig))
    (p : String × MCPServiceConfig) (r : MergeServiceResult) :
    List (String × MCPServiceConfig) :=
  match r.conflict with
  | some _ => servers
  | none =>
      match r.action with
      | .skip => servers
      | _ => objSet servers p.1 (r.config.getD p.2)

/-- One iteration of the for-loop in mergeConfigs over a source entry. -/
def mergeStep (now : Nat) (options : MergeOptions) (st : LoopState)
    (p : String × MCPServiceConfig) : LoopState :=
  let r := mergeService now p.1 p.2 (objGet st.servers p.1) options
  { servers := stepServers st.servers p r,
    conflicts := st.conflicts ++ r.conflict.toList,
    warnings := st.warnings ++ r.warnings,
    stats := stepStats st.stats r }

/-- mergeConfigs from ConfigMerger.ts.  now stands for Date.now() and
validate for the injected ConfigurationManager.validateConfig (modelled
as returning normally). -/
def mergeConfigs (now : Nat) (validate : MCPConfig → ValidationResult)
    (sourceConfig targetConfig : MCPConfig) (options : MergeOptions) : MergeResult :=
  let sourceServices := sourceConfig.mcpServers.getD []
  let initStats : MergeStats :=
    { totalServices := sourceServices.length, addedServices := 0,
      updatedServices := 0, skippedServices := 0, conflictServices := 0 }
  let merged0 : MCPConfig :=
    { targetConfig with mcpServers := some (targetConfig.mcpServers.getD []) }
  let merged1 : MCPConfig :=
    if strTruthy sourceConfig.version &&
        (!strTruthy targetConfig.version ||
          decide (0 < compareVersions (sourceConfig.version.getD "") (targetConfig.version.getD ""))) then
      { merged0 with version := sourceConfig.version }
    else merged0
  let merged2 : MCPConfig :=
    if options.preserveMetadata then
      { merged1 with metadata := mergeMetadata now sourceConfig.metadata targetConfig.metadata }
    else merged1
  let finState := sourceServices.foldl (mergeStep now options)
    { servers := targetConfig.mcpServers.getD [], conflicts := [], warnings := [],
      stats := initStats }
  let mergedConfig : MCPConfig := { merged2 with mcpServers := some finState.servers }
  let valPart : List String × List String :=
    if options.validateResult then
      let v := validate mergedConfig
      ((if v.isValid then [] else v.errors.map (fun e => e.message)),
       v.warnings.map (fun w => w.message))
    else ([], [])
  { success := valPart.1.isEmpty,
    config := some mergedConfig,
    conflicts := finState.conflicts,
    errors := valPart.1,
    warnings := finState.warnings ++ valPart.2,
    stats := finState.stats }

/-- detectConflicts from ConfigMerger.ts: per common service name, the
pairwise conflict, collected in source order. -/
def detectConflicts (now : Nat) (sourceConfig targetConfig : MCPConfig) :
    List ConfigConflict :=
  let sourceServices := sourceConfig.mcpServers.getD []
  let targetServices := targetConfig.mcpServers.getD []
  sourceServices.filterMap (fun p =>
    match objGet targetServices p.1 with
    | some t => detectServiceConflict now p.1 p.2 t
    | none => none)

/-- Return type of analyzeDifferences. -/
structure DiffResult where
  onlyInFirst : List String
  onlyInSecond : List String
  different : List String
  identical : List String
deriving Repr

/-- analyzeDifferences from ConfigMerger.ts: names only in the first, only
in the second, and the common names split by areServicesEqual. -/
def analyzeDifferences (config1 config2 : MCPConfig) : DiffResult :=
  let servers1 := config1.mcpServers.getD []
  let servers2 := config2.mcpServers.getD []
  let services1 := servers1.map Prod.fst
  let services2 := servers2.map Prod.fst
  let onlyInFirst := services1.filter (fun name => !services2.contains name)
  let onlyInSecond := services2.filter (fun name => !services1.contains name)
  let common := services1.filter (fun name => services2.contains name)
  let identical := common.filter (fun name =>
    areServicesEqual ((objGet servers1 name).getD default) ((objGet servers2 name).getD default))
  let different := common.filter (fun name =>
    !areServicesEqual ((objGet servers1 name).getD default) ((objGet servers2 name).getD default))
  { onlyInFirst := onlyInFirst, onlyInSecond := onlyInSecond,
    different := different, identical := identical }

/-- Server map of a merge result, empty when no record was produced. -/
def resultServices (r : MergeResult) : List (String × MCPServiceConfig) :=
  match r.config with
  | some c => c.mcpServers.getD []
  | none => []

/-- Per-entry outcome of the merge loop, phrased against the original
target map: valid because each source name is looked up before it is ever
written (source names are distinct in a record). -/
def entryResult (now : Nat) (options : MergeOptions)
    (tgtList : List (String × MCPServiceConfig)) (p : String × MCPServiceConfig) :
    MergeServiceResult :=
  mergeService now p.1 p.2 (objGet tgtList p.1) options

/-- Whether a per-service outcome is tallied as added. -/
def countedAdd (r : MergeServiceResult) : Bool :=
  r.conflict.isNone && r.action == MergeAction.add

/-- Whether a per-service outcome is tallied as updated. -/
def countedUpdate (r : MergeServiceResult) : Bool :=
  r.conflict.isNone && r.action == MergeAction.update

/-- Whether a per-service outcome is tallied as skipped. -/
def countedSkip (r : MergeServiceResult) : Bool :=
  r.conflict.isNone && r.action == MergeAction.skip

/-- Whether a per-service outcome is tallied as conflicted. -/
def countedConflict (r : MergeServiceResult) : Bool :=
  r.conflict.isSome

/-- Final descriptor stored under a source name after the loop: the
target's original one when the entry was skipped or deferred, the
returned config when it was added or updated. -/
def entryFinal (now : Nat) (options : MergeOptions)
    (tgtList : List (String × MCPServiceConfig)) (p : String × MCPServiceConfig) :
    Option MCPServiceConfig :=
  let r := entryResult now options tgtList p
  match r.conflict with
  | some _ => objGet tgtList p.1
  | none =>
      match r.action with
      | .skip => objGet tgtList p.1
      | _ => some (r.config.getD p.2)

/-! Lemmas about the object primitives. -/

theorem objGet_nil {V : Type} (k : String) : objGet ([] : List (String × V)) k = none := rfl

theorem objGet_cons {V : Type} (k0 : String) (v0 : V) (o : List (String × V)) (k : String) :
    objGet ((k0, v0) :: o) k = if k0 = k then some v0 else objGet o k := by
  by_cases h : k0 = k
  · subst h; simp [objGet, List.find?_cons_of_pos]
  · simp only [objGet, List.find?_cons_of_neg, h, if_false]
    exact congrArg _ (List.find?_cons_of_neg _ (by simpa using h))

theorem objGet_eq_none_iff {V : Type} (o : List (String × V)) (k : String) :
    objGet o k = none ↔ k ∉ o.map Prod.fst := by
  induction o with
  | nil => simp [objGet_nil]
  | cons p rest ih =>
      rcases p with ⟨k0, v0⟩
      rw [objGet_cons, List.map_cons]
      by_cases h : k0 = k
      · subst h; simp
      · rw [if_neg h, ih, List.mem_cons]
        constructor
        · rintro hn (rfl | hm)
          · exact h rfl
          · exact hn hm
        · intro hn hm
          exact hn (Or.inr hm)

theorem objGet_mem {V : Type} {o : List (String × V)} {k : String} {v : V}
    (h : objGet o k = some v) : (k, v) ∈ o := by
  induction o with
  | nil => simp [objGet_nil] at h
  | cons p rest ih =>
      rcases p with ⟨k0, v0⟩
      rw [objGet_cons] at h
      by_cases hk : k0 = k
      · subst hk
        rw [if_pos rfl] at h
        injection h with h
        subst h
        exact List.mem_cons_self _ _
      · rw [if_neg hk] at h
        exact List.mem_cons_of_mem _ (ih h)

theorem objGet_of_mem_nodup {V : Type} {o : List (String × V)}
    (hnd : (o.map Prod.fst).Nodup) {k : String} {v : V} (hm : (k, v) ∈ o) :
    objGet o k = some v := by
  induction o with
  | nil => cases hm
  | cons p rest ih =>
      rcases p with ⟨k0, v0⟩
      rw [List.map_cons, List.nodup_cons] at hnd
      rw [objGet_cons]
      rcases List.mem_cons.1 hm with heq | hmem
      · rw [Prod.mk.injEq] at heq
        simp [heq.1, heq.2]
      · have hne : k0 ≠ k := by
          rintro rfl
          exact hnd.1 (List.mem_map.2 ⟨(k0, v), hmem, rfl⟩)
        rw [if_neg hne]
        exact ih hnd.2 hmem

theorem objGet_map_set_ne {V : Type} (o : List (String × V)) (k : String) (v : V)
    (k' : String) (h : k ≠ k') :
    objGet (o.map (fun p => if p.1 = k then (k, v) else p)) k' = objGet o k' := by
  induction o with
  | nil => rfl
  | cons p rest ih =>
      rcases p with ⟨k0, v0⟩
      rw [List.map_cons]
      by_cases hk : k0 = k
      · rw [if_pos (by exact hk), objGet_cons, objGet_cons, if_neg h, if_neg (hk ▸ h), ih]
      · rw [if_neg (by exact hk), objGet_cons, objGet_cons, ih]

theorem objGet_map_set_self {V : Type} (o : List (String × V)) (k : String) (v : V)
    (h : (o.find? (fun p => p.1 == k)).isSome) :
    objGet (o.map (fun p => if p.1 = k then (k, v) else p)) k = some v := by
  induction o with
  | nil => simp at h
  | cons p rest ih =>
      rcases p with ⟨k0, v0⟩
      rw [List.map_cons]
      by_cases hk : k0 = k
      · rw [if_pos (by exact hk), objGet_cons, if_pos rfl]
      · rw [if_neg (by exact hk), objGet_cons, if_neg hk]
        apply ih
        rwa [List.find?_cons_of_neg _ (by simpa using hk)] at h

theorem objGet_append {V : Type} (o1 o2 : List (String × V)) (k : String) :
    objGet (o1 ++ o2) k = (objGet o1 k).orElse (fun _ => objGet o2 k) := by
  induction o1 with
  | nil => rfl
  | cons p rest ih =>
      rcases p with ⟨k0, v0⟩
      rw [List.cons_append, objGet_cons, objGet_cons]
      by_cases h : k0 = k <;> simp [h, ih]

theorem objGet_objSet {V : Type} (o : List (String × V)) (k : String) (v : V) (k' : String) :
    objGet (objSet o k v) k' = if k = k' then some v else objGet o k' := by
  unfold objSet
  by_cases hfind : (o.find? (fun p => p.1 == k)).isSome
  · rw [if_pos hfind]
    by_cases h : k = k'
    · subst h; rw [if_pos rfl, objGet_map_set_self o k v hfind]
    · rw [if_neg h, objGet_map_set_ne o k v k' h]
  · rw [if_neg hfind, objGet_append]
    have hnone : objGet o k = none := by
      unfold objGet
      rw [Option.not_isSome_iff_eq_none.1 hfind]
      rfl
    by_cases h : k = k'
    · subst h; simp [hnone, objGet_cons]
    · rw [if_neg h, objGet_cons, if_neg h, objGet_nil]
      cases hv : objGet o k' <;> simp

theorem objSet_eq_self {V : Type} {o : List (String × V)}
    (hnd : (o.map Prod.fst).Nodup) {k : String} {v : V}
    (h : objGet o k = some v) : objSet o k v = o := by
  have hfind : (o.find? (fun p => p.1 == k)).isSome := by
    by_contra hc
    unfold objGet at h
    rw [Option.not_isSome_iff_eq_none.1 hc] at h
    simp at h
  unfold objSet
  rw [if_pos hfind]
  have hcong : ∀ p ∈ o, (if p.1 = k then (k, v) else p) = p := by
    intro p hp
    by_cases hk : p.1 = k
    · have hv : objGet o p.1 = some p.2 := objGet_of_mem_nodup hnd hp
      rw [hk, h] at hv
      injection hv with hv
      rw [if_pos hk, ← hk, hv]
    · rw [if_neg hk]
  calc o.map (fun p => if p.1 = k then (k, v) else p)
      = o.map id := List.map_congr_left hcong
    _ = o := List.map_id o

theorem objSpread_self {V : Type} {o : List (String × V)}
    (hnd : (o.map Prod.fst).Nodup) : objSpread o o = o := by
  unfold objSpread
  have hmap : ∀ p ∈ o,
      (match objGet o p.1 with
        | some v => (p.1, v)
        | none => p) = p := by
    intro p hp
    rw [objGet_of_mem_nodup hnd (by exact hp)]
  have hfil : o.filter (fun p => (objGet o p.1).isNone) = [] := by
    rw [List.filter_eq_nil_iff]
    intro p hp
    rw [objGet_of_mem_nodup hnd (by exact hp)]
    simp
  rw [hfil, List.append_nil]
  calc o.map _ = o.map id := List.map_congr_left hmap
    _ = o := List.map_id o

/-! Lemmas about the equality helpers. -/

theorem length_zip_all_iff : ∀ (a b : List String),
    (a.length = b.length ∧ ((a.zip b).all (fun p => p.1 == p.2)) = true) ↔ a = b := by
  intro a
  induction a with
  | nil => intro b; cases b <;> simp
  | cons x xs ih =>
      intro b
      cases b with
      | nil => simp
      | cons y ys =>
          rw [List.zip_cons_cons, List.all_cons]
          simp only [List.length_cons, add_left_inj, Bool.and_eq_true, beq_iff_eq,
            List.cons.injEq]
          constructor
          · rintro ⟨h1, h2, h3⟩
            exact ⟨h2, (ih ys).1 ⟨h1, h3⟩⟩
          · rintro ⟨rfl, rfl⟩
            exact ⟨rfl, rfl, ((ih xs).2 rfl).2⟩

theorem areArraysEqual_eq_true_iff (arr1 arr2 : Option (List String)) :
    areArraysEqual arr1 arr2 = true ↔
      (arr1 = none ∧ arr2 = none) ∨ ∃ l, arr1 = some l ∧ arr2 = some l := by
  cases arr1 with
  | none =>
      cases arr2 with
      | none => simp [areArraysEqual]
      | some a2 => simp [areArraysEqual]
  | some a1 =>
      cases arr2 with
      | none => simp [areArraysEqual]
      | some a2 =>
          simp only [areArraysEqual, Bool.and_eq_true, beq_iff_eq, Option.some.injEq,
            reduceCtorEq, false_and, and_false, false_or]
          rw [length_zip_all_iff a1 a2]
          constructor
          · rintro rfl
            exact ⟨a1, rfl, rfl⟩
          · rintro ⟨l, rfl, rfl⟩
            rfl

theorem areArraysEqual_refl (a : Option (List String)) : areArraysEqual a a = true := by
  rw [areArraysEqual_eq_true_iff]
  cases a with
  | none => exact Or.inl ⟨rfl, rfl⟩
  | some l => exact Or.inr ⟨l, rfl, rfl⟩

theorem areObjectsEqual_refl (o : Option EnvObj)
    (h : ∀ e, o = some e → (e.map Prod.fst).Nodup) :
    areObjectsEqual o o = true := by
  cases o with
  | none => rfl
  | some e =>
      simp only [areObjectsEqual, Bool.and_eq_true, beq_self_eq_true, true_and]
      rw [List.all_eq_true]
      intro p hp
      rw [objGet_of_mem_nodup (h e rfl) (by exact hp)]
      simp

theorem areServicesEqual_refl (s : MCPServiceConfig)
    (h : ∀ e, s.env = some e → (e.map Prod.fst).Nodup) :
    areServicesEqual s s = true := by
  simp only [areServicesEqual, Bool.and_eq_true]
  exact ⟨⟨⟨by simp, areArraysEqual_refl _⟩, areObjectsEqual_refl _ h⟩, by simp⟩

theorem detectServiceConflict_self (now : Nat) (n : String) (s : MCPServiceConfig)
    (h : ∀ e, s.env = some e → (e.map Prod.fst).Nodup) :
    detectServiceConflict now n s s = none := by
  simp [detectServiceConflict, conflictFields, areArraysEqual_refl, areObjectsEqual_refl _ h]

theorem orElse_self {α : Type} (o : Option α) : (o <|> o) = o := by
  cases o <;> rfl

theorem mergeServiceConfigs_self (now : Nat) (s : MCPServiceConfig)
    (h : ∀ e, s.env = some e → (e.map Prod.fst).Nodup) :
    mergeServiceConfigs now s s false = s := by
  rcases s with ⟨c, a, env, d, cw, t, m⟩
  cases env with
  | none => simp [mergeServiceConfigs, orElse_self]
  | some e =>
      have hsp := objSpread_self (h e rfl)
      simp [mergeServiceConfigs, orElse_self, hsp]

/-! Per-step lemmas for the merge loop. -/

theorem stepStats_totalServices (stats : MergeStats) (r : MergeServiceResult) :
    (stepStats stats r).totalServices = stats.totalServices := by
  rcases r with ⟨action, config, conflict, warnings⟩
  cases conflict <;> cases action <;> rfl

theorem stepStats_added (stats : MergeStats) (r : MergeServiceResult) :
    (stepStats stats r).addedServices = stats.addedServices + (countedAdd r).toNat := by
  rcases r with ⟨action, config, conflict, warnings⟩
  cases conflict <;> cases action <;> simp [stepStats, countedAdd]

theorem stepStats_updated (stats : MergeStats) (r : MergeServiceResult) :
    (stepStats stats r).updatedServices = stats.updatedServices + (countedUpdate r).toNat := by
  rcases r with ⟨action, config, conflict, warnings⟩
  cases conflict <;> cases action <;> simp [stepStats, countedUpdate]

theorem stepStats_skipped (stats : MergeStats) (r : MergeServiceResult) :
    (stepStats stats r).skippedServices = stats.skippedServices + (countedSkip r).toNat := by
  rcases r with ⟨action, config, conflict, warnings⟩
  cases conflict <;> cases action <;> simp [stepStats, countedSkip]

theorem stepStats_conflict (stats : MergeStats) (r : MergeServiceResult) :
    (stepStats stats r).conflictServices = stats.conflictServices + (countedConflict r).toNat := by
  rcases r with ⟨action, config, conflict, warnings⟩
  cases conflict <;> cases action <;> simp [stepStats, countedConflict]

theorem objGet_stepServers_ne (servers : List (String × MCPServiceConfig))
    (p : String × MCPServiceConfig) (r : MergeServiceResult) (k : String)
    (h : p.1 ≠ k) :
    objGet (stepServers servers p r) k = objGet servers k := by
  rcases r with ⟨action, config, conflict, warnings⟩
  cases conflict with
  | some c => rfl
  | none =>
      cases action with
      | skip => rfl
      | add => rw [show stepServers servers p ⟨.add, config, none, warnings⟩ =
            objSet servers p.1 (config.getD p.2) from rfl, objGet_objSet, if_neg h]
      | update => rw [show stepServers servers p ⟨.update, config, none, warnings⟩ =
            objSet servers p.1 (config.getD p.2) from rfl, objGet_objSet, if_neg h]

theorem objGet_stepServers_self (servers : List (String × MCPServiceConfig))
    (p : String × MCPServiceConfig) (r : MergeServiceResult) :
    objGet (stepServers servers p r) p.1 =
      (match r.conflict with
        | some _ => objGet servers p.1
        | none =>
            match r.action with
            | .skip => objGet servers p.1
            | _ => some (r.config.getD p.2)) := by
  rcases r with ⟨action, config, conflict, warnings⟩
  cases conflict with
  | some c => rfl
  | none =>
      cases action with
      | skip => rfl
      | add => rw [show stepServers servers p ⟨.add, config, none, warnings⟩ =
            objSet servers p.1 (config.getD p.2) from rfl, objGet_objSet, if_pos rfl]
      | update => rw [show stepServers servers p ⟨.update, config, none, warnings⟩ =
            objSet servers p.1 (config.getD p.2) from rfl, objGet_objSet, if_pos rfl]


/-- Characterization of the merge loop against the original target map:
with distinct source names, the conflicts, warnings and stats accumulate
per entry, and the final map resolves each source name per entryFinal and
leaves every other name untouched. -/
theorem mergeLoop_spec (now : Nat) (options : MergeOptions)
    (tgtList : List (String × MCPServiceConfig)) :
    ∀ (src : List (String × MCPServiceConfig)) (st0 : LoopState),
      (src.map Prod.fst).Nodup →
      (∀ p ∈ src, objGet st0.servers p.1 = objGet tgtList p.1) →
      ((src.foldl (mergeStep now options) st0).conflicts =
          st0.conflicts ++ src.filterMap (fun p => (entryResult now options tgtList p).conflict)) ∧
      ((src.foldl (mergeStep now options) st0).warnings =
          st0.warnings ++ (src.map (fun p => (entryResult now options tgtList p).warnings)).flatten) ∧
      ((src.foldl (mergeStep now options) st0).stats.totalServices = st0.stats.totalServices) ∧
      ((src.foldl (mergeStep now options) st0).stats.addedServices =
          st0.stats.addedServices +
            (src.filter (fun p => countedAdd (entryResult now options tgtList p))).length) ∧
      ((src.foldl (mergeStep now options) st0).stats.updatedServices =
          st0.stats.updatedServices +
            (src.filter (fun p => countedUpdate (entryResult now options tgtList p))).length) ∧
      ((src.foldl (mergeStep now options) st0).stats.skippedServices =
          st0.stats.skippedServices +
            (src.filter (fun p => countedSkip (entryResult now options tgtList p))).length) ∧
      ((src.foldl (mergeStep now options) st0).stats.conflictServices =
          st0.stats.conflictServices +
            (src.filter (fun p => countedConflict (entryResult now options tgtList p))).length) ∧
      (∀ k, k ∉ src.map Prod.fst →
          objGet (src.foldl (mergeStep now options) st0).servers k = objGet st0.servers k) ∧
      (∀ k v, (k, v) ∈ src →
          objGet (src.foldl (mergeStep now options) st0).servers k =
            entryFinal now options tgtList (k, v)) := by
  intro src
  induction src with
  | nil =>
      intro st0 hnd hagree
      simp
  | cons p rest ih =>
      intro st0 hnd hagree
      rw [List.map_cons, List.nodup_cons] at hnd
      obtain ⟨hp_notin, hnd_rest⟩ := hnd
      have hagree_p : objGet st0.servers p.1 = objGet tgtList p.1 :=
        hagree p (List.mem_cons_self _ _)
      have hstep : mergeStep now options st0 p =
          { servers := stepServers st0.servers p (entryResult now options tgtList p),
            conflicts := st0.conflicts ++ (entryResult now options tgtList p).conflict.toList,
            warnings := st0.warnings ++ (entryResult now options tgtList p).warnings,
            stats := stepStats st0.stats (entryResult now options tgtList p) } := by
        unfold mergeStep entryResult
        rw [hagree_p]
      have hserv : (mergeStep now options st0 p).servers =
          stepServers st0.servers p (entryResult now options tgtList p) := by rw [hstep]
      have hconf : (mergeStep now options st0 p).conflicts =
          st0.conflicts ++ (entryResult now options tgtList p).conflict.toList := by rw [hstep]
      have hwarn : (mergeStep now options st0 p).warnings =
          st0.warnings ++ (entryResult now options tgtList p).warnings := by rw [hstep]
      have hstats : (mergeStep now options st0 p).stats =
          stepStats st0.stats (entryResult now options tgtList p) := by rw [hstep]
      have hagree1 : ∀ q ∈ rest,
          objGet (mergeStep now options st0 p).servers q.1 = objGet tgtList q.1 := by
        intro q hq
        have hne : p.1 ≠ q.1 := fun he => hp_notin (he ▸ List.mem_map.2 ⟨q, hq, rfl⟩)
        rw [hserv, objGet_stepServers_ne _ _ _ _ hne]
        exact hagree q (List.mem_cons_of_mem _ hq)
      obtain ⟨ihc, ihw, iht, iha, ihu, ihs, ihf, ihk, ihv⟩ :=
        ih (mergeStep now options st0 p) hnd_rest hagree1
      rw [List.foldl_cons]
      refine ⟨?_, ?_, ?_, ?_, ?_, ?_, ?_, ?_, ?_⟩
      · rw [ihc, hconf, List.filterMap_cons]
        cases hc : (entryResult now options tgtList p).conflict <;> simp [hc]
      · rw [ihw, hwarn]
        simp
      · rw [iht, hstats, stepStats_totalServices]
      · rw [iha, hstats, stepStats_added, List.filter_cons]
        cases hc : countedAdd (entryResult now options tgtList p) <;> simp [hc] <;> omega
      · rw [ihu, hstats, stepStats_updated, List.filter_cons]
        cases hc : countedUpdate (entryResult now options tgtList p) <;> simp [hc] <;> omega
      · rw [ihs, hstats, stepStats_skipped, List.filter_cons]
        cases hc : countedSkip (entryResult now options tgtList p) <;> simp [hc] <;> omega
      · rw [ihf, hstats, stepStats_conflict, List.filter_cons]
        cases hc : countedConflict (entryResult now options tgtList p) <;> simp [hc] <;> omega
      · intro k hk
        rw [List.map_cons, List.mem_cons] at hk
        push_neg at hk
        rw [ihk k hk.2, hserv]
        exact objGet_stepServers_ne _ _ _ _ (fun he => hk.1 he.symm)
      · intro k v hkv
        rcases List.mem_cons.1 hkv with heq | hmem
        · subst heq
          have hk_notin : k ∉ rest.map Prod.fst := hp_notin
          rw [ihk k hk_notin, hserv, objGet_stepServers_self]
          unfold entryFinal
          cases hc : (entryResult now options tgtList (k, v)).conflict with
          | some c => simp only [hc]; exact hagree_p
          | none =>
              cases ha : (entryResult now options tgtList (k, v)).action with
              | skip => simp only [hc, ha]; exact hagree_p
              | add => simp only [hc, ha]
              | update => simp only [hc, ha]
        · exact ihv k v hmem

/-- Initial loop state of mergeConfigs: the working map starts as the
shallow copy of the target map, stats count the source services. -/
def initState (src tgt : List (String × MCPServiceConfig)) : LoopState :=
  { servers := tgt, conflicts := [], warnings := [],
    stats := { totalServices := src.length, addedServices := 0, updatedServices := 0,
               skippedServices := 0, conflictServices := 0 } }

theorem mergeConfigs_stats_eq (now : Nat) (validate : MCPConfig → ValidationResult)
    (sourceConfig targetConfig : MCPConfig) (options : MergeOptions) :
    (mergeConfigs now validate sourceConfig targetConfig options).stats =
      ((sourceConfig.mcpServers.getD []).foldl (mergeStep now options)
        (initState (sourceConfig.mcpServers.getD []) (targetConfig.mcpServers.getD []))).stats := rfl

theorem mergeConfigs_conflicts_eq (now : Nat) (validate : MCPConfig → ValidationResult)
    (sourceConfig targetConfig : MCPConfig) (options : MergeOptions) :
    (mergeConfigs now validate sourceConfig targetConfig options).conflicts =
      ((sourceConfig.mcpServers.getD []).foldl (mergeStep now options)
        (initState (sourceConfig.mcpServers.getD []) (targetConfig.mcpServers.getD []))).conflicts := rfl

theorem resultServices_mergeConfigs (now : Nat) (validate : MCPConfig → ValidationResult)
    (sourceConfig targetConfig : MCPConfig) (options : MergeOptions) :
    resultServices (mergeConfigs now validate sourceConfig targetConfig options) =
      ((sourceConfig.mcpServers.getD []).foldl (mergeStep now options)
        (initState (sourceConfig.mcpServers.getD []) (targetConfig.mcpServers.getD []))).servers := rfl

theorem mergeConfigs_warnings_eq (now : Nat) (validate : MCPConfig → ValidationResult)
    (sourceConfig targetConfig : MCPConfig) (options : MergeOptions) :
    ∃ tailw,
      (mergeConfigs now validate sourceConfig targetConfig options).warnings =
        ((sourceConfig.mcpServers.getD []).foldl (mergeStep now options)
          (initState (sourceConfig.mcpServers.getD []) (targetConfig.mcpServers.getD []))).warnings
          ++ tailw := ⟨_, rfl⟩

theorem counted_sum (r : MergeServiceResult) :
    (countedAdd r).toNat + (countedUpdate r).toNat + (countedSkip r).toNat +
      (countedConflict r).toNat = 1 := by
  rcases r with ⟨action, config, conflict, warnings⟩
  cases conflict <;> cases action <;> rfl

theorem conflict_toList_length (r : MergeServiceResult) :
    r.conflict.toList.length = (countedConflict r).toNat := by
  rcases r with ⟨action, config, conflict, warnings⟩
  cases conflict <;> rfl

theorem mergeLoop_sum (now : Nat) (options : MergeOptions) :
    ∀ (src : List (String × MCPServiceConfig)) (st0 : LoopState),
      ((src.foldl (mergeStep now options) st0).stats.addedServices +
        (src.foldl (mergeStep now options) st0).stats.updatedServices +
        (src.foldl (mergeStep now options) st0).stats.skippedServices +
        (src.foldl (mergeStep now options) st0).stats.conflictServices =
          st0.stats.addedServices + st0.stats.updatedServices +
          st0.stats.skippedServices + st0.stats.conflictServices + src.length) ∧
      ((src.foldl (mergeStep now options) st0).stats.totalServices =
        st0.stats.totalServices) := by
  intro src
  induction src with
  | nil => intro st0; simp
  | cons p rest ih =>
      intro st0
      rw [List.foldl_cons]
      obtain ⟨ih1, ih2⟩ := ih (mergeStep now options st0 p)
      have hst : (mergeStep now options st0 p).stats =
          stepStats st0.stats (mergeService now p.1 p.2 (objGet st0.servers p.1) options) := rfl
      have hsum := counted_sum (mergeService now p.1 p.2 (objGet st0.servers p.1) options)
      constructor
      · rw [ih1, hst, stepStats_added, stepStats_updated, stepStats_skipped,
          stepStats_conflict, List.length_cons]
        omega
      · rw [ih2, hst, stepStats_totalServices]

theorem mergeLoop_conflen (now : Nat) (options : MergeOptions) :
    ∀ (src : List (String × MCPServiceConfig)) (st0 : LoopState),
      (src.foldl (mergeStep now options) st0).conflicts.length + st0.stats.conflictServices =
        (src.foldl (mergeStep now options) st0).stats.conflictServices + st0.conflicts.length := by
  intro src
  induction src with
  | nil => intro st0; rw [List.foldl_nil]; omega
  | cons p rest ih =>
      intro st0
      rw [List.foldl_cons]
      have h := ih (mergeStep now options st0 p)
      have e1 : (mergeStep now options st0 p).conflicts.length =
          st0.conflicts.length +
            (mergeService now p.1 p.2 (objGet st0.servers p.1) options).conflict.toList.length := by
        rw [show (mergeStep now options st0 p).conflicts = st0.conflicts ++
          (mergeService now p.1 p.2 (objGet st0.servers p.1) options).conflict.toList from rfl]
        exact List.length_append _ _
      have e2 : (mergeStep now options st0 p).stats.conflictServices =
          st0.stats.conflictServices +
            (countedConflict (mergeService now p.1 p.2 (objGet st0.servers p.1) options)).toNat := by
        rw [show (mergeStep now options st0 p).stats =
          stepStats st0.stats (mergeService now p.1 p.2 (objGet st0.servers p.1) options) from rfl]
        exact stepStats_conflict _ _
      have e3 := conflict_toList_length (mergeService now p.1 p.2 (objGet st0.servers p.1) options)
      omega

theorem mergeService_conflict_none (now : Nat) (n : String) (s : MCPServiceConfig)
    (t : Option MCPServiceConfig) (options : MergeOptions)
    (h : options.strategy ≠ MergeStrategy.prompt) :
    (mergeService now n s t options).conflict = none := by
  rcases t with _ | tt
  · rfl
  · cases hd : detectServiceConflict now n s tt with
    | none => simp [mergeService, hd]
    | some c =>
        cases hstrat : options.strategy with
        | overwrite => simp [mergeService, hd, hstrat]
        | skip => simp [mergeService, hd, hstrat]
        | merge => simp [mergeService, hd, hstrat]
        | prompt => exact absurd hstrat h

theorem mergeLoop_conflicts_nil (now : Nat) (options : MergeOptions)
    (h : options.strategy ≠ MergeStrategy.prompt) :
    ∀ (src : List (String × MCPServiceConfig)) (st0 : LoopState),
      (src.foldl (mergeStep now options) st0).conflicts = st0.conflicts := by
  intro src
  induction src with
  | nil => intro st0; rfl
  | cons p rest ih =>
      intro st0
      rw [List.foldl_cons, ih]
      rw [show (mergeStep now options st0 p).conflicts = st0.conflicts ++
        (mergeService now p.1 p.2 (objGet st0.servers p.1) options).conflict.toList from rfl]
      rw [mergeService_conflict_none _ _ _ _ _ h]
      simp

/-! Branch characterizations of the per-service merge. -/

theorem entryResult_absent (now : Nat) (options : MergeOptions)
    (tgtList : List (String × MCPServiceConfig)) (p : String × MCPServiceConfig)
    (h : objGet tgtList p.1 = none) :
    entryResult now options tgtList p =
      { action := .add, config := some p.2, conflict := none, warnings := [] } := by
  unfold entryResult
  rw [h]
  rfl

theorem entryResult_skip (now : Nat) (options : MergeOptions)
    (tgtList : List (String × MCPServiceConfig)) (p : String × MCPServiceConfig)
    (tv : MCPServiceConfig) (h : objGet tgtList p.1 = some tv)
    (hc : (detectServiceConflict now p.1 p.2 tv).isSome)
    (hs : options.strategy = MergeStrategy.skip) :
    entryResult now options tgtList p =
      { action := .skip, config := none, conflict := none,
        warnings := ["跳过冲突的服务 \"" ++ p.1 ++ "\""] } := by
  unfold entryResult
  rw [h]
  obtain ⟨c, hc2⟩ := Option.isSome_iff_exists.1 hc
  simp [mergeService, hc2, hs]

theorem entryResult_prompt (now : Nat) (options : MergeOptions)
    (tgtList : List (String × MCPServiceConfig)) (p : String × MCPServiceConfig)
    (tv : MCPServiceConfig) (c : ConfigConflict) (h : objGet tgtList p.1 = some tv)
    (hc : detectServiceConflict now p.1 p.2 tv = some c)
    (hs : options.strategy = MergeStrategy.prompt) :
    entryResult now options tgtList p =
      { action := .skip, config := none, conflict := some c, warnings := [] } := by
  unfold entryResult
  rw [h]
  simp [mergeService, hc, hs]

theorem detectServiceConflict_name (now : Nat) (n : String)
    (s t : MCPServiceConfig) (c : ConfigConflict)
    (h : detectServiceConflict now n s t = some c) : c.serviceName = n := by
  simp only [detectServiceConflict] at h
  by_cases hie : (conflictFields s t).isEmpty
  · rw [if_pos hie] at h
    cases h
  · rw [if_neg hie] at h
    injection h with h
    rw [← h]

theorem mergeService_conflict_name (now : Nat) (n : String) (s : MCPServiceConfig)
    (t : Option MCPServiceConfig) (options : MergeOptions) (c : ConfigConflict)
    (h : (mergeService now n s t options).conflict = some c) : c.serviceName = n := by
  rcases t with _ | tt
  · simp [mergeService] at h
  · cases hd : detectServiceConflict now n s tt with
    | none => simp [mergeService, hd] at h
    | some c0 =>
        cases hstrat : options.strategy with
        | overwrite => simp [mergeService, hd, hstrat] at h
        | skip => simp [mergeService, hd, hstrat] at h
        | merge => simp [mergeService, hd, hstrat] at h
        | prompt =>
            simp only [mergeService, hd, hstrat, Option.some.injEq] at h
            rw [← h]
            exact detectServiceConflict_name now n s tt c0 hd

theorem countedAdd_entryResult (now : Nat) (options : MergeOptions)
    (tgtList : List (String × MCPServiceConfig)) (p : String × MCPServiceConfig) :
    countedAdd (entryResult now options tgtList p) = (objGet tgtList p.1).isNone := by
  unfold entryResult
  cases h : objGet tgtList p.1 with
  | none => rfl
  | some tv =>
      cases hd : detectServiceConflict now p.1 p.2 tv with
      | none => simp [mergeService, hd, countedAdd]
      | some c =>
          cases hs : options.strategy <;> simp [mergeService, hd, hs, countedAdd]

theorem counted_three_entryResult (now : Nat) (options : MergeOptions)
    (tgtList : List (String × MCPServiceConfig)) (p : String × MCPServiceConfig) :
    (countedUpdate (entryResult now options tgtList p)).toNat +
      (countedSkip (entryResult now options tgtList p)).toNat +
      (countedConflict (entryResult now options tgtList p)).toNat =
      ((objGet tgtList p.1).isSome).toNat := by
  unfold entryResult
  cases h : objGet tgtList p.1 with
  | none => rfl
  | some tv =>
      cases hd : detectServiceConflict now p.1 p.2 tv with
      | none => simp [mergeService, hd, countedUpdate, countedSkip, countedConflict]
      | some c =>
          cases hs : options.strategy <;>
            simp [mergeService, hd, hs, countedUpdate, countedSkip, countedConflict]

theorem length_filter_three {α : Type} (l : List α) (P Q S T : α → Bool)
    (h : ∀ x ∈ l, (P x).toNat + (Q x).toNat + (S x).toNat = (T x).toNat) :
    (l.filter P).length + (l.filter Q).length + (l.filter S).length =
      (l.filter T).length := by
  induction l with
  | nil => simp
  | cons a t ih =>
      have ha := h a (List.mem_cons_self _ _)
      have iht := ih (fun x hx => h x (List.mem_cons_of_mem _ hx))
      rw [List.filter_cons, List.filter_cons, List.filter_cons, List.filter_cons]
      rcases hP : P a <;> rcases hQ : Q a <;> rcases hS : S a <;> rcases hT : T a <;>
        rw [hP, hQ, hS, hT] at ha <;> simp at ha ⊢ <;> omega

/-! Concrete inputs used by the witnesses. -/

/-- Sample service: node with one argument. -/
def svcNode : MCPServiceConfig :=
  { command := "node", args := some ["a"], env := none, disabled := none,
    cwd := none, timeout := none, metadata := none }

/-- Sample service conflicting with svcNode on the command field. -/
def svcPy : MCPServiceConfig :=
  { command := "python", args := some ["a"], env := none, disabled := none,
    cwd := none, timeout := none, metadata := none }

/-- Trivial validator that accepts everything. -/
def valTrivial : MCPConfig → ValidationResult :=
  fun _ => { isValid := true, errors := [], warnings := [] }

/-- Source record with one service named a. -/
def cfgSrcW : MCPConfig :=
  { mcpServers := some [("a", svcNode)], version := none, metadata := none, schema := none }

/-- Source record with one new service named b. -/
def cfgSrcNewW : MCPConfig :=
  { mcpServers := some [("b", svcNode)], version := none, metadata := none, schema := none }

/-- Target record holding a conflicting a and an unrelated c. -/
def cfgTgtW : MCPConfig :=
  { mcpServers := some [("a", svcPy), ("c", svcNode)], version := none, metadata := none,
    schema := none }

/-- Options selecting the skip strategy. -/
def optsSkipW : MergeOptions :=
  { strategy := .skip, preserveMetadata := false, createBackup := false,
    validateResult := false, conflictResolution := none }

/-- Options selecting the prompt (defer) strategy. -/
def optsPromptW : MergeOptions :=
  { strategy := .prompt, preserveMetadata := false, createBackup := false,
    validateResult := false, conflictResolution := none }

/-- C1: for every pairwise merge, over all strategies, inputs, timestamps
and validator behaviors, the stats satisfy
totalSourceServices = added + updated + skipped + conflicted. -/
theorem mergeConfigs_stats_invariant (now : Nat) (validate : MCPConfig → ValidationResult)
    (sourceConfig targetConfig : MCPConfig) (options : MergeOptions) :
    (mergeConfigs now validate sourceConfig targetConfig options).stats.totalServices =
      (mergeConfigs now validate sourceConfig targetConfig options).stats.addedServices +
      (mergeConfigs now validate sourceConfig targetConfig options).stats.updatedServices +
      (mergeConfigs now validate sourceConfig targetConfig options).stats.skippedServices +
      (mergeConfigs now validate sourceConfig targetConfig options).stats.conflictServices := by
  obtain ⟨h1, h2⟩ := mergeLoop_sum now options (sourceConfig.mcpServers.getD [])
    (initState (sourceConfig.mcpServers.getD []) (targetConfig.mcpServers.getD []))
  rw [mergeConfigs_stats_eq, h2]
  have e0 : (initState (sourceConfig.mcpServers.getD [])
      (targetConfig.mcpServers.getD [])).stats.totalServices =
      (sourceConfig.mcpServers.getD []).length := rfl
  have e1 : (initState (sourceConfig.mcpServers.getD [])
      (targetConfig.mcpServers.getD [])).stats.addedServices = 0 := rfl
  have e2 : (initState (sourceConfig.mcpServers.getD [])
      (targetConfig.mcpServers.getD [])).stats.updatedServices = 0 := rfl
  have e3 : (initState (sourceConfig.mcpServers.getD [])
      (targetConfig.mcpServers.getD [])).stats.skippedServices = 0 := rfl
  have e4 : (initState (sourceConfig.mcpServers.getD [])
      (targetConfig.mcpServers.getD [])).stats.conflictServices = 0 := rfl
  omega

/-- C10: the conflicts list always has exactly stats.conflicted entries,
and under every strategy other than prompt (defer) it is empty. -/
theorem mergeConfigs_conflicts_surface (now : Nat) (validate : MCPConfig → ValidationResult)
    (sourceConfig targetConfig : MCPConfig) (options : MergeOptions) :
    (mergeConfigs now validate sourceConfig targetConfig options).conflicts.length =
      (mergeConfigs now validate sourceConfig targetConfig options).stats.conflictServices ∧
    (options.strategy ≠ MergeStrategy.prompt →
      (mergeConfigs now validate sourceConfig targetConfig options).conflicts = []) := by
  constructor
  · have h := mergeLoop_conflen now options (sourceConfig.mcpServers.getD [])
      (initState (sourceConfig.mcpServers.getD []) (targetConfig.mcpServers.getD []))
    rw [mergeConfigs_conflicts_eq, mergeConfigs_stats_eq]
    have e0 : (initState (sourceConfig.mcpServers.getD [])
        (targetConfig.mcpServers.getD [])).stats.conflictServices = 0 := rfl
    have e1 : (initState (sourceConfig.mcpServers.getD [])
        (targetConfig.mcpServers.getD [])).conflicts.length = 0 := rfl
    omega
  · intro hs
    rw [mergeConfigs_conflicts_eq, mergeLoop_conflicts_nil now options hs]
    rfl

/-- Witness for C10 at concrete inputs: a skip-strategy merge with a real
conflict has an empty conflicts list whose length matches the counter. -/
theorem mergeConfigs_conflicts_surface_witness :
    optsSkipW.strategy ≠ MergeStrategy.prompt ∧
    (mergeConfigs 0 valTrivial cfgSrcW cfgTgtW optsSkipW).conflicts = [] ∧
    (mergeConfigs 0 valTrivial cfgSrcW cfgTgtW optsSkipW).conflicts.length =
      (mergeConfigs 0 valTrivial cfgSrcW cfgTgtW optsSkipW).stats.conflictServices :=
  ⟨by decide,
   (mergeConfigs_conflicts_surface 0 valTrivial cfgSrcW cfgTgtW optsSkipW).2 (by decide),
   (mergeConfigs_conflicts_surface 0 valTrivial cfgSrcW cfgTgtW optsSkipW).1⟩

/-- C5: a service present in the source and absent from the target is
added unchanged under every strategy: the merged map holds the source
descriptor, no conflict mentions the name, added counts exactly the
target-absent source entries, and the other three counters together count
only target-present entries. -/
theorem mergeConfigs_new_service (now : Nat) (validate : MCPConfig → ValidationResult)
    (sourceConfig targetConfig : MCPConfig) (options : MergeOptions)
    (n : String) (v : MCPServiceConfig)
    (hnd : ((sourceConfig.mcpServers.getD []).map Prod.fst).Nodup)
    (hsv : objGet (sourceConfig.mcpServers.getD []) n = some v)
    (htv : objGet (targetConfig.mcpServers.getD []) n = none) :
    objGet (resultServices (mergeConfigs now validate sourceConfig targetConfig options)) n =
      some v ∧
    (∀ c ∈ (mergeConfigs now validate sourceConfig targetConfig options).conflicts,
      c.serviceName ≠ n) ∧
    (mergeConfigs now validate sourceConfig targetConfig options).stats.addedServices =
      ((sourceConfig.mcpServers.getD []).filter
        (fun p => (objGet (targetConfig.mcpServers.getD []) p.1).isNone)).length ∧
    (mergeConfigs now validate sourceConfig targetConfig options).stats.updatedServices +
      (mergeConfigs now validate sourceConfig targetConfig options).stats.skippedServices +
      (mergeConfigs now validate sourceConfig targetConfig options).stats.conflictServices =
      ((sourceConfig.mcpServers.getD []).filter
        (fun p => (objGet (targetConfig.mcpServers.getD []) p.1).isSome)).length := by
  obtain ⟨hc, hw, htot, hadd, hupd, hskipL, hconfl, hkeep, hfin⟩ :=
    mergeLoop_spec now options (targetConfig.mcpServers.getD [])
      (sourceConfig.mcpServers.getD [])
      (initState (sourceConfig.mcpServers.getD []) (targetConfig.mcpServers.getD []))
      hnd (fun p _ => rfl)
  refine ⟨?_, ?_, ?_, ?_⟩
  · rw [resultServices_mergeConfigs, hfin n v (objGet_mem hsv)]
    unfold entryFinal
    rw [entryResult_absent now options _ (n, v) htv]
    rfl
  · intro c hcmem
    rw [mergeConfigs_conflicts_eq, hc] at hcmem
    rw [show (initState (sourceConfig.mcpServers.getD [])
      (targetConfig.mcpServers.getD [])).conflicts = [] from rfl, List.nil_append] at hcmem
    obtain ⟨p, hpmem, hpc⟩ := List.mem_filterMap.1 hcmem
    have hname : c.serviceName = p.1 :=
      mergeService_conflict_name now p.1 p.2
        (objGet (targetConfig.mcpServers.getD []) p.1) options c hpc
    intro heq
    have hp1 : p.1 = n := by rw [← hname, heq]
    have habs := entryResult_absent now options (targetConfig.mcpServers.getD []) p
      (by rw [hp1]; exact htv)
    rw [habs] at hpc
    cases hpc
  · rw [mergeConfigs_stats_eq, hadd]
    rw [show (initState (sourceConfig.mcpServers.getD [])
      (targetConfig.mcpServers.getD [])).stats.addedServices = 0 from rfl, Nat.zero_add]
    congr 1
    apply List.filter_congr
    intro p _
    exact countedAdd_entryResult now options _ p
  · rw [mergeConfigs_stats_eq, hupd, hskipL, hconfl]
    rw [show (initState (sourceConfig.mcpServers.getD [])
      (targetConfig.mcpServers.getD [])).stats.updatedServices = 0 from rfl,
      show (initState (sourceConfig.mcpServers.getD [])
      (targetConfig.mcpServers.getD [])).stats.skippedServices = 0 from rfl,
      show (initState (sourceConfig.mcpServers.getD [])
      (targetConfig.mcpServers.getD [])).stats.conflictServices = 0 from rfl,
      Nat.zero_add, Nat.zero_add, Nat.zero_add]
    apply length_filter_three
    intro p _
    exact counted_three_entryResult now options _ p

/-- Witness for C5: merging a source holding only the new service b into
a target that lacks b. -/
theorem mergeConfigs_new_service_witness :
    ((cfgSrcNewW.mcpServers.getD []).map Prod.fst).Nodup ∧
    objGet (cfgSrcNewW.mcpServers.getD []) "b" = some svcNode ∧
    objGet (cfgTgtW.mcpServers.getD []) "b" = none ∧
    (objGet (resultServices (mergeConfigs 0 valTrivial cfgSrcNewW cfgTgtW optsSkipW)) "b" =
      some svcNode ∧
    (∀ c ∈ (mergeConfigs 0 valTrivial cfgSrcNewW cfgTgtW optsSkipW).conflicts,
      c.serviceName ≠ "b") ∧
    (mergeConfigs 0 valTrivial cfgSrcNewW cfgTgtW optsSkipW).stats.addedServices =
      ((cfgSrcNewW.mcpServers.getD []).filter
        (fun p => (objGet (cfgTgtW.mcpServers.getD []) p.1).isNone)).length ∧
    (mergeConfigs 0 valTrivial cfgSrcNewW cfgTgtW optsSkipW).stats.updatedServices +
      (mergeConfigs 0 valTrivial cfgSrcNewW cfgTgtW optsSkipW).stats.skippedServices +
      (mergeConfigs 0 valTrivial cfgSrcNewW cfgTgtW optsSkipW).stats.conflictServices =
      ((cfgSrcNewW.mcpServers.getD []).filter
        (fun p => (objGet (cfgTgtW.mcpServers.getD []) p.1).isSome)).length) :=
  ⟨by decide, by decide, by decide,
   mergeConfigs_new_service 0 valTrivial cfgSrcNewW cfgTgtW optsSkipW "b" svcNode
     (by decide) (by decide) (by decide)⟩

/-- C6: under the skip strategy, a service present on both sides whose
descriptors conflict keeps the target's original descriptor in the merged
map, is tallied in skippedServices, and a warning naming it is emitted. -/
theorem mergeConfigs_skip_preserves (now : Nat) (validate : MCPConfig → ValidationResult)
    (sourceConfig targetConfig : MCPConfig) (options : MergeOptions)
    (n : String) (sv tv : MCPServiceConfig)
    (hstrat : options.strategy = MergeStrategy.skip)
    (hnd : ((sourceConfig.mcpServers.getD []).map Prod.fst).Nodup)
    (hsv : objGet (sourceConfig.mcpServers.getD []) n = some sv)
    (htv : objGet (targetConfig.mcpServers.getD []) n = some tv)
    (hcf : (detectServiceConflict now n sv tv).isSome) :
    objGet (resultServices (mergeConfigs now validate sourceConfig targetConfig options)) n =
      some tv ∧
    ("跳过冲突的服务 \"" ++ n ++ "\"") ∈
      (mergeConfigs now validate sourceConfig targetConfig options).warnings ∧
    (mergeConfigs now validate sourceConfig targetConfig options).stats.skippedServices =
      ((sourceConfig.mcpServers.getD []).filter
        (fun p => countedSkip (entryResult now options (targetConfig.mcpServers.getD []) p))).length ∧
    countedSkip (entryResult now options (targetConfig.mcpServers.getD []) (n, sv)) = true := by
  obtain ⟨hc, hw, htot, hadd, hupd, hskipL, hconfl, hkeep, hfin⟩ :=
    mergeLoop_spec now options (targetConfig.mcpServers.getD [])
      (sourceConfig.mcpServers.getD [])
      (initState (sourceConfig.mcpServers.getD []) (targetConfig.mcpServers.getD []))
      hnd (fun p _ => rfl)
  have hentry := entryResult_skip now options (targetConfig.mcpServers.getD [])
    (n, sv) tv htv hcf hstrat
  refine ⟨?_, ?_, ?_, ?_⟩
  · rw [resultServices_mergeConfigs, hfin n sv (objGet_mem hsv)]
    unfold entryFinal
    rw [hentry]
    exact htv
  · obtain ⟨tailw, hwarns⟩ :=
      mergeConfigs_warnings_eq now validate sourceConfig targetConfig options
    rw [hwarns]
    apply List.mem_append_left
    rw [hw]
    rw [show (initState (sourceConfig.mcpServers.getD [])
      (targetConfig.mcpServers.getD [])).warnings = [] from rfl, List.nil_append]
    refine List.mem_flatten.2 ⟨["跳过冲突的服务 \"" ++ n ++ "\""], ?_, ?_⟩
    · exact List.mem_map.2 ⟨(n, sv), objGet_mem hsv, by rw [hentry]⟩
    · exact List.mem_singleton.2 rfl
  · rw [mergeConfigs_stats_eq, hskipL]
    rw [show (initState (sourceConfig.mcpServers.getD [])
      (targetConfig.mcpServers.getD [])).stats.skippedServices = 0 from rfl, Nat.zero_add]
  · rw [hentry]
    rfl

/-- Witness for C6: skip-merging a source whose service a conflicts with
the target's a on the command field. -/
theorem mergeConfigs_skip_preserves_witness :
    optsSkipW.strategy = MergeStrategy.skip ∧
    objGet (cfgSrcW.mcpServers.getD []) "a" = some svcNode ∧
    objGet (cfgTgtW.mcpServers.getD []) "a" = some svcPy ∧
    (detectServiceConflict 0 "a" svcNode svcPy).isSome = true ∧
    (objGet (resultServices (mergeConfigs 0 valTrivial cfgSrcW cfgTgtW optsSkipW)) "a" =
      some svcPy ∧
    ("跳过冲突的服务 \"" ++ "a" ++ "\"") ∈
      (mergeConfigs 0 valTrivial cfgSrcW cfgTgtW optsSkipW).warnings ∧
    (mergeConfigs 0 valTrivial cfgSrcW cfgTgtW optsSkipW).stats.skippedServices =
      ((cfgSrcW.mcpServers.getD []).filter
        (fun p => countedSkip (entryResult 0 optsSkipW (cfgTgtW.mcpServers.getD []) p))).length ∧
    countedSkip (entryResult 0 optsSkipW (cfgTgtW.mcpServers.getD []) ("a", svcNode)) = true) :=
  ⟨by decide, by decide, by decide, by decide,
   mergeConfigs_skip_preserves 0 valTrivial cfgSrcW cfgTgtW optsSkipW "a" svcNode svcPy
     (by decide) (by decide) (by decide) (by decide) (by decide)⟩

/-- C7: under the prompt (defer) strategy, a detected conflict is appended
to the conflicts list and tallied as conflicted and not as skipped, the
merged map keeps the target's original descriptor, and a merged record is
still returned. -/
theorem mergeConfigs_defer_conflict (now : Nat) (validate : MCPConfig → ValidationResult)
    (sourceConfig targetConfig : MCPConfig) (options : MergeOptions)
    (n : String) (sv tv : MCPServiceConfig) (c : ConfigConflict)
    (hstrat : options.strategy = MergeStrategy.prompt)
    (hnd : ((sourceConfig.mcpServers.getD []).map Prod.fst).Nodup)
    (hsv : objGet (sourceConfig.mcpServers.getD []) n = some sv)
    (htv : objGet (targetConfig.mcpServers.getD []) n = some tv)
    (hcf : detectServiceConflict now n sv tv = some c) :
    c ∈ (mergeConfigs now validate sourceConfig targetConfig options).conflicts ∧
    objGet (resultServices (mergeConfigs now validate sourceConfig targetConfig options)) n =
      some tv ∧
    (mergeConfigs now validate sourceConfig targetConfig options).stats.conflictServices =
      ((sourceConfig.mcpServers.getD []).filter
        (fun p => countedConflict (entryResult now options (targetConfig.mcpServers.getD []) p))).length ∧
    countedConflict (entryResult now options (targetConfig.mcpServers.getD []) (n, sv)) = true ∧
    countedSkip (entryResult now options (targetConfig.mcpServers.getD []) (n, sv)) = false ∧
    (mergeConfigs now validate sourceConfig targetConfig options).config.isSome = true := by
  obtain ⟨hc, hw, htot, hadd, hupd, hskipL, hconfl, hkeep, hfin⟩ :=
    mergeLoop_spec now options (targetConfig.mcpServers.getD [])
      (sourceConfig.mcpServers.getD [])
      (initState (sourceConfig.mcpServers.getD []) (targetConfig.mcpServers.getD []))
      hnd (fun p _ => rfl)
  have hentry := entryResult_prompt now options (targetConfig.mcpServers.getD [])
    (n, sv) tv c htv hcf hstrat
  refine ⟨?_, ?_, ?_, ?_, ?_, ?_⟩
  · rw [mergeConfigs_conflicts_eq, hc]
    rw [show (initState (sourceConfig.mcpServers.getD [])
      (targetConfig.mcpServers.getD [])).conflicts = [] from rfl, List.nil_append]
    exact List.mem_filterMap.2 ⟨(n, sv), objGet_mem hsv, by rw [hentry]⟩
  · rw [resultServices_mergeConfigs, hfin n sv (objGet_mem hsv)]
    unfold entryFinal
    rw [hentry]
    exact htv
  · rw [mergeConfigs_stats_eq, hconfl]
    rw [show (initState (sourceConfig.mcpServers.getD [])
      (targetConfig.mcpServers.getD [])).stats.conflictServices = 0 from rfl, Nat.zero_add]
  · rw [hentry]
    rfl
  · rw [hentry]
    rfl
  · rfl

/-- The conflict produced for service a between svcNode and svcPy at
timestamp 0. -/
def conflictW : ConfigConflict :=
  { id := "conflict_a_0", serviceName := "a", type := "different-config",
    sourceConfig := svcNode, targetConfig := svcPy,
    description := "服务 \"a\" 在以下字段存在冲突: command", path := "",
    valuesSource := svcNode, valuesTarget := svcPy }

/-- Witness for C7: defer-merging a source whose service a conflicts with
the target's a surfaces exactly that conflict. -/
theorem mergeConfigs_defer_conflict_witness :
    optsPromptW.strategy = MergeStrategy.prompt ∧
    detectServiceConflict 0 "a" svcNode svcPy = some conflictW ∧
    (conflictW ∈ (mergeConfigs 0 valTrivial cfgSrcW cfgTgtW optsPromptW).conflicts ∧
    objGet (resultServices (mergeConfigs 0 valTrivial cfgSrcW cfgTgtW optsPromptW)) "a" =
      some svcPy ∧
    (mergeConfigs 0 valTrivial cfgSrcW cfgTgtW optsPromptW).stats.conflictServices =
      ((cfgSrcW.mcpServers.getD []).filter
        (fun p => countedConflict (entryResult 0 optsPromptW (cfgTgtW.mcpServers.getD []) p))).length ∧
    countedConflict (entryResult 0 optsPromptW (cfgTgtW.mcpServers.getD []) ("a", svcNode)) = true ∧
    countedSkip (entryResult 0 optsPromptW (cfgTgtW.mcpServers.getD []) ("a", svcNode)) = false ∧
    (mergeConfigs 0 valTrivial cfgSrcW cfgTgtW optsPromptW).config.isSome = true) :=
  ⟨by decide, by decide,
   mergeConfigs_defer_conflict 0 valTrivial cfgSrcW cfgTgtW optsPromptW "a" svcNode svcPy
     conflictW (by decide) (by decide) (by decide) (by decide) (by decide)⟩

/-! Order lemmas for the compared doubles. -/

theorem dlt_irrefl (x : DoubleVal) : dlt x x = false := by
  cases x with
  | negInf => rfl
  | posInf => rfl
  | fin a => simp [dlt]

theorem dlt_asymm (x y : DoubleVal) (h : dlt x y = true) : dlt y x = false := by
  cases x <;> cases y <;> simp [dlt] at h ⊢ <;> omega

theorem dlt_total_eq (x y : DoubleVal) (h1 : dlt x y = false) (h2 : dlt y x = false) :
    x = y := by
  cases x <;> cases y <;> simp [dlt] at h1 h2 ⊢ <;> omega

/-! Self-merge lemmas for C2. -/

theorem cmpParts_refl : ∀ a : List DoubleVal, cmpParts a a = 0 := by
  intro a
  induction a with
  | nil => rfl
  | cons x xs ih => simp [cmpParts, dlt_irrefl, ih]

/-- With preserveMetadata off, replaying every entry of a well-formed map
onto itself leaves the working map unchanged as a list. -/
theorem selfMerge_loop_servers (now : Nat) (options : MergeOptions)
    (hpm : options.preserveMetadata = false) :
    ∀ (src : List (String × MCPServiceConfig)) (st0 : LoopState),
      (st0.servers.map Prod.fst).Nodup →
      (∀ p ∈ src, objGet st0.servers p.1 = some p.2 ∧
        (∀ e, p.2.env = some e → (e.map Prod.fst).Nodup)) →
      (src.foldl (mergeStep now options) st0).servers = st0.servers := by
  intro src
  induction src with
  | nil => intro st0 _ _; rfl
  | cons p rest ih =>
      intro st0 hnd hp
      obtain ⟨hlook, henv⟩ := hp p (List.mem_cons_self _ _)
      have hdet : detectServiceConflict now p.1 p.2 p.2 = none :=
        detectServiceConflict_self now p.1 p.2 henv
      have hmsc : mergeServiceConfigs now p.2 p.2 options.preserveMetadata = p.2 := by
        rw [hpm]
        exact mergeServiceConfigs_self now p.2 henv
      have hserv : (mergeStep now options st0 p).servers = st0.servers := by
        rw [show (mergeStep now options st0 p).servers =
          stepServers st0.servers p
            (mergeService now p.1 p.2 (objGet st0.servers p.1) options) from rfl]
        rw [hlook]
        simp only [mergeService, hdet]
        rw [show stepServers st0.servers p
            { action := .update,
              config := some (mergeServiceConfigs now p.2 p.2 options.preserveMetadata),
              conflict := none, warnings := [] } =
          objSet st0.servers p.1 (mergeServiceConfigs now p.2 p.2 options.preserveMetadata)
          from rfl]
        rw [hmsc]
        exact objSet_eq_self hnd hlook
      have h1 : ((mergeStep now options st0 p).servers.map Prod.fst).Nodup := by
        rw [hserv]; exact hnd
      have h2 : ∀ q ∈ rest, objGet (mergeStep now options st0 p).servers q.1 = some q.2 ∧
          (∀ e, q.2.env = some e → (e.map Prod.fst).Nodup) := by
        intro q hq
        rw [hserv]
        exact hp q (List.mem_cons_of_mem _ hq)
      rw [List.foldl_cons, ih (mergeStep now options st0 p) h1 h2, hserv]

/-- Shape of the produced record when the version condition fails and
metadata is not preserved: the target record with the final working map. -/
theorem mergeConfigs_config_eq (now : Nat) (validate : MCPConfig → ValidationResult)
    (sourceConfig targetConfig : MCPConfig) (options : MergeOptions)
    (hver : (strTruthy sourceConfig.version && (!strTruthy targetConfig.version ||
        decide (0 < compareVersions (sourceConfig.version.getD "")
          (targetConfig.version.getD "")))) = false)
    (hpm : options.preserveMetadata = false) :
    (mergeConfigs now validate sourceConfig targetConfig options).config =
      some ⟨some ((sourceConfig.mcpServers.getD []).foldl (mergeStep now options)
          (initState (sourceConfig.mcpServers.getD [])
            (targetConfig.mcpServers.getD []))).servers,
        targetConfig.version, targetConfig.metadata, targetConfig.schema⟩ := by
  simp only [mergeConfigs, hver, hpm, Bool.false_eq_true, if_false]
  rfl

/-- C2 (amended): for a well-formed record R (mcpServers present, service
names distinct, env keys distinct), self merge produces no conflicts
under every strategy and option; and when preserveMetadata is off the
merged record equals R. -/
theorem mergeConfigs_self_merge (now : Nat) (validate : MCPConfig → ValidationResult)
    (R : MCPConfig) (options : MergeOptions) (l : List (String × MCPServiceConfig))
    (hl : R.mcpServers = some l)
    (hk : (l.map Prod.fst).Nodup)
    (henv : ∀ p ∈ l, ∀ e, p.2.env = some e → (e.map Prod.fst).Nodup) :
    (mergeConfigs now validate R R options).conflicts = [] ∧
    (options.preserveMetadata = false →
      (mergeConfigs now validate R R options).config = some R) := by
  have hgd : R.mcpServers.getD [] = l := by rw [hl]; rfl
  have hk0 : ((R.mcpServers.getD []).map Prod.fst).Nodup := by rw [hgd]; exact hk
  constructor
  · obtain ⟨hc, _, _, _, _, _, _, _, _⟩ :=
      mergeLoop_spec now options (R.mcpServers.getD []) (R.mcpServers.getD [])
        (initState (R.mcpServers.getD []) (R.mcpServers.getD []))
        hk0 (fun p _ => rfl)
    rw [mergeConfigs_conflicts_eq, hc,
      show (initState (R.mcpServers.getD []) (R.mcpServers.getD [])).conflicts = [] from rfl,
      List.nil_append]
    rw [List.filterMap_eq_nil_iff]
    intro p hp
    rw [hgd] at hp
    have hlook : objGet (R.mcpServers.getD []) p.1 = some p.2 := by
      rw [hgd]
      exact objGet_of_mem_nodup hk (by exact hp)
    unfold entryResult
    rw [hlook]
    simp [mergeService, detectServiceConflict_self now p.1 p.2 (henv p hp)]
  · intro hpm
    have hcv : compareVersions (R.version.getD "") (R.version.getD "") = 0 := by
      unfold compareVersions
      exact cmpParts_refl _
    have hver : (strTruthy R.version && (!strTruthy R.version ||
        decide (0 < compareVersions (R.version.getD "") (R.version.getD "")))) = false := by
      rw [hcv]
      cases strTruthy R.version <;> rfl
    rw [mergeConfigs_config_eq now validate R R options hver hpm]
    have hserv : ((R.mcpServers.getD []).foldl (mergeStep now options)
        (initState (R.mcpServers.getD []) (R.mcpServers.getD []))).servers =
        R.mcpServers.getD [] := by
      apply selfMerge_loop_servers now options hpm
      · exact hk0
      · intro p hp
        rw [hgd] at hp
        constructor
        · rw [show (initState (R.mcpServers.getD []) (R.mcpServers.getD [])).servers =
            R.mcpServers.getD [] from rfl, hgd]
          exact objGet_of_mem_nodup hk (by exact hp)
        · exact henv p hp
    rw [hserv, hgd, ← hl]

/-- Record with config-level metadata carrying lastModified = 0, used to
exhibit the metadata restamping. -/
def cfgMetaW : MCPConfig :=
  { mcpServers := some [("a", svcNode)], version := none,
    metadata := some [("lastModified", JVal.num 0)], schema := none }

/-- Options with preserveMetadata switched on. -/
def optsPMW : MergeOptions :=
  { strategy := .prompt, preserveMetadata := true, createBackup := false,
    validateResult := false, conflictResolution := none }

/-- Counterexample to C2 as stated: with preserveMetadata = true the self
merge restamps metadata.lastModified with the current time, so the merged
record is not structurally equal to R. -/
theorem mergeConfigs_self_merge_counterexample :
    (mergeConfigs 1 valTrivial cfgMetaW cfgMetaW optsPMW).config ≠ some cfgMetaW := by
  decide

/-- Witness for the amended C2 at a concrete record and options. -/
theorem mergeConfigs_self_merge_witness :
    cfgSrcW.mcpServers = some [("a", svcNode)] ∧
    (([("a", svcNode)] : List (String × MCPServiceConfig)).map Prod.fst).Nodup ∧
    (∀ p ∈ ([("a", svcNode)] : List (String × MCPServiceConfig)),
      ∀ e, p.2.env = some e → (e.map Prod.fst).Nodup) ∧
    ((mergeConfigs 0 valTrivial cfgSrcW cfgSrcW optsSkipW).conflicts = [] ∧
      (optsSkipW.preserveMetadata = false →
        (mergeConfigs 0 valTrivial cfgSrcW cfgSrcW optsSkipW).config = some cfgSrcW)) := by
  have henvW : ∀ p ∈ ([("a", svcNode)] : List (String × MCPServiceConfig)),
      ∀ e, p.2.env = some e → (e.map Prod.fst).Nodup := by
    intro p hp e he
    rw [List.mem_singleton] at hp
    subst hp
    simp [svcNode] at he
  exact ⟨rfl, by decide, henvW,
    mergeConfigs_self_merge 0 valTrivial cfgSrcW optsSkipW [("a", svcNode)] rfl
      (by decide) henvW⟩

/-- Counterexample to C3 as stated: an empty argument list on one side and
an absent one on the other compare as unequal. -/
theorem areArraysEqual_empty_absent_counterexample :
    areArraysEqual (some ([] : List String)) none = false := by decide

/-- C3 (amended): argsEqual is true iff both lists are absent, or both are
present with identical length and equal elements position by position;
empty-versus-absent is false and reordered lists are false. -/
theorem areArraysEqual_spec (arr1 arr2 : Option (List String)) :
    (areArraysEqual arr1 arr2 = true ↔
      ((arr1 = none ∧ arr2 = none) ∨ ∃ l, arr1 = some l ∧ arr2 = some l)) ∧
    areArraysEqual (some ([] : List String)) none = false ∧
    areArraysEqual (some ["x", "y"]) (some ["y", "x"]) = false :=
  ⟨areArraysEqual_eq_true_iff arr1 arr2, by decide, by decide⟩

/-- C8: the four lists of analyzeDifferences partition the distinct
service names of the two records, and a common name lands in identical
exactly when the two descriptors agree on command, args, env and
disabled (areServicesEqual). -/
theorem analyzeDifferences_partition (config1 config2 : MCPConfig) (n : String) :
    ((n ∈ (analyzeDifferences config1 config2).onlyInFirst ∨
      n ∈ (analyzeDifferences config1 config2).onlyInSecond ∨
      n ∈ (analyzeDifferences config1 config2).different ∨
      n ∈ (analyzeDifferences config1 config2).identical) ↔
      (n ∈ (config1.mcpServers.getD []).map Prod.fst ∨
        n ∈ (config2.mcpServers.getD []).map Prod.fst)) ∧
    ¬(n ∈ (analyzeDifferences config1 config2).onlyInFirst ∧
      n ∈ (analyzeDifferences config1 config2).onlyInSecond) ∧
    ¬(n ∈ (analyzeDifferences config1 config2).onlyInFirst ∧
      n ∈ (analyzeDifferences config1 config2).different) ∧
    ¬(n ∈ (analyzeDifferences config1 config2).onlyInFirst ∧
      n ∈ (analyzeDifferences config1 config2).identical) ∧
    ¬(n ∈ (analyzeDifferences config1 config2).onlyInSecond ∧
      n ∈ (analyzeDifferences config1 config2).different) ∧
    ¬(n ∈ (analyzeDifferences config1 config2).onlyInSecond ∧
      n ∈ (analyzeDifferences config1 config2).identical) ∧
    ¬(n ∈ (analyzeDifferences config1 config2).different ∧
      n ∈ (analyzeDifferences config1 config2).identical) ∧
    (n ∈ (analyzeDifferences config1 config2).identical ↔
      (n ∈ (config1.mcpServers.getD []).map Prod.fst ∧
        n ∈ (config2.mcpServers.getD []).map Prod.fst ∧
        areServicesEqual ((objGet (config1.mcpServers.getD []) n).getD default)
          ((objGet (config2.mcpServers.getD []) n).getD default) = true)) := by
  cases hsv : areServicesEqual ((objGet (config1.mcpServers.getD []) n).getD default)
      ((objGet (config2.mcpServers.getD []) n).getD default) <;>
    simp only [analyzeDifferences, List.mem_filter, List.elem_eq_mem, Bool.not_eq_true',
      decide_eq_false_iff_not, Bool.not_eq_true, Bool.and_eq_true, decide_eq_true_eq, hsv,
      Bool.false_eq_true, Bool.true_eq_false, and_false, and_true, false_and, true_and,
      not_false_eq_true, iff_false, iff_true, or_false, false_or, not_true_eq_false] <;>
    tauto

theorem powFuel_spec (b : Nat) : ∀ fuel e, e ≤ fuel → powFuel b fuel e = b ^ e := by
  intro fuel
  induction fuel with
  | zero =>
      intro e he
      have h0 : e = 0 := by omega
      subst h0
      rfl
  | succ f ih =>
      intro e he
      by_cases he0 : e = 0
      · subst he0
        simp [powFuel]
      · rw [show powFuel b (f + 1) e =
            if e = 0 then 1
            else if e % 2 = 0 then powFuel b f (e / 2) * powFuel b f (e / 2)
            else b * (powFuel b f (e / 2) * powFuel b f (e / 2)) from rfl,
          if_neg he0, ih (e / 2) (by omega)]
        by_cases hpar : e % 2 = 0
        · rw [if_pos hpar, ← pow_add]
          congr 1
          omega
        · rw [if_neg hpar, ← pow_add, ← pow_succ']
          congr 1
          omega

theorem jsPow_spec (b e : Nat) : jsPow b e = b ^ e := powFuel_spec b e e (Nat.le_refl e)

theorem digit_toNat_bounds (c : Char) (h : c.isDigit = true) :
    48 ≤ c.toNat ∧ c.toNat ≤ 57 := by
  simp [Char.isDigit] at h
  exact ⟨h.1, h.2⟩

theorem digit_not_ws (c : Char) (h : c.isDigit = true) :
    isStrWhiteSpaceChar c = false := by
  have hb := digit_toNat_bounds c h
  simp [isStrWhiteSpaceChar]
  omega

theorem dropWhile_eq_self_of_forall {p : Char → Bool} (cs : List Char)
    (h : ∀ c ∈ cs, p c = false) : cs.dropWhile p = cs := by
  cases cs with
  | nil => rfl
  | cons c rest =>
      rw [List.dropWhile_cons]
      simp [h c (List.mem_cons_self c rest)]

theorem trimWS_digits (cs : List Char) (h : cs.all Char.isDigit = true) :
    trimWS cs = cs := by
  have hall : ∀ c ∈ cs, isStrWhiteSpaceChar c = false := by
    intro c hc
    exact digit_not_ws c (by
      rw [List.all_eq_true] at h
      exact h c hc)
  rw [show trimWS cs =
      ((cs.dropWhile isStrWhiteSpaceChar).reverse.dropWhile isStrWhiteSpaceChar).reverse
    from rfl]
  rw [dropWhile_eq_self_of_forall cs hall]
  rw [dropWhile_eq_self_of_forall cs.reverse (by
    intro c hc
    exact hall c (List.mem_reverse.mp hc))]
  exact List.reverse_reverse cs

theorem takeWhile_digits (cs : List Char) (h : cs.all Char.isDigit = true) :
    cs.takeWhile Char.isDigit = cs := by
  induction cs with
  | nil => rfl
  | cons c rest ih =>
      simp only [List.all_cons, Bool.and_eq_true] at h
      rw [List.takeWhile_cons, h.1, if_pos rfl, ih h.2]

theorem parseUnsignedDec_digits (cs : List Char) (h1 : cs ≠ [])
    (h2 : cs.all Char.isDigit = true) :
    parseUnsignedDec cs = some (digitsVal cs, 0) := by
  have hint := takeWhile_digits cs h2
  have hne : cs.isEmpty = false := by
    cases cs with
    | nil => exact absurd rfl h1
    | cons c rest => rfl
  simp only [parseUnsignedDec, hint, List.drop_length, hne, Bool.false_eq_true,
    if_false, parseExponent]

theorem jsDecOrInf_digits (cs : List Char) (h1 : cs ≠ [])
    (h2 : cs.all Char.isDigit = true) :
    jsDecOrInf cs = JSExact.val false (digitsVal cs) 1 := by
  cases cs with
  | nil => exact absurd rfl h1
  | cons c rest =>
      simp only [List.all_cons, Bool.and_eq_true] at h2
      have hplus : ¬ c = '+' := by
        intro hc
        rw [hc] at h2
        simp at h2
      have hminus : ¬ c = '-' := by
        intro hc
        rw [hc] at h2
        simp at h2
      have hinf : ¬ (c :: rest) = ['I', 'n', 'f', 'i', 'n', 'i', 't', 'y'] := by
        intro hc
        rw [List.cons_eq_cons] at hc
        rw [hc.1] at h2
        simp at h2
      rw [show jsDecOrInf (c :: rest) =
          (let signBody : Bool × List Char :=
             if c = '+' then (false, rest) else if c = '-' then (true, rest)
             else (false, c :: rest)
           if signBody.2 = ['I', 'n', 'f', 'i', 'n', 'i', 't', 'y'] then JSExact.inf signBody.1
           else
             match parseUnsignedDec signBody.2 with
             | some (n, ex) =>
                 if 0 ≤ ex then JSExact.val signBody.1 (n * jsPow 10 ex.toNat) 1
                 else JSExact.val signBody.1 n (jsPow 10 (-ex).toNat)
             | none => JSExact.nan) from rfl]
      rw [if_neg hplus, if_neg hminus]
      simp only
      rw [if_neg hinf]
      rw [parseUnsignedDec_digits (c :: rest) h1 (by simp [h2.1, h2.2])]
      simp only
      rw [if_pos (by omega : (0 : Int) ≤ 0)]
      rw [show ((0 : Int)).toNat = 0 from rfl, show jsPow 10 0 = 1 from rfl, Nat.mul_one]

theorem jsNumberOfChars_digits (cs : List Char) (h1 : cs ≠ [])
    (h2 : cs.all Char.isDigit = true) :
    jsNumberOfChars cs = JSExact.val false (digitsVal cs) 1 := by
  rw [show jsNumberOfChars cs =
      (match trimWS cs with
       | [] => JSExact.val false 0 1
       | c0 :: rest =>
           match rest with
           | c :: ds =>
               if c0 = '0' ∧ (c = 'x' ∨ c = 'X') then
                 if !ds.isEmpty && ds.all isHexDigit then JSExact.val false (radixVal 16 ds) 1
                 else JSExact.nan
               else if c0 = '0' ∧ (c = 'o' ∨ c = 'O') then
                 if !ds.isEmpty && ds.all isOctDigit then JSExact.val false (radixVal 8 ds) 1
                 else JSExact.nan
               else if c0 = '0' ∧ (c = 'b' ∨ c = 'B') then
                 if !ds.isEmpty && ds.all isBinDigit then JSExact.val false (radixVal 2 ds) 1
                 else JSExact.nan
               else jsDecOrInf (c0 :: c :: ds)
           | [] => jsDecOrInf [c0]) from rfl]
  rw [trimWS_digits cs h2]
  cases cs with
  | nil => exact absurd rfl h1
  | cons c0 rest =>
      cases rest with
      | nil =>
          simp only
          exact jsDecOrInf_digits [c0] (by simp) h2
      | cons c ds =>
          simp only [List.all_cons, Bool.and_eq_true] at h2
          have hdig := h2.2.1
          have hx : ¬ (c0 = '0' ∧ (c = 'x' ∨ c = 'X')) := by
            rintro ⟨-, hc | hc⟩ <;> (rw [hc] at hdig; simp at hdig)
          have ho : ¬ (c0 = '0' ∧ (c = 'o' ∨ c = 'O')) := by
            rintro ⟨-, hc | hc⟩ <;> (rw [hc] at hdig; simp at hdig)
          have hb : ¬ (c0 = '0' ∧ (c = 'b' ∨ c = 'B')) := by
            rintro ⟨-, hc | hc⟩ <;> (rw [hc] at hdig; simp at hdig)
          simp only
          rw [if_neg hx, if_neg ho, if_neg hb]
          exact jsDecOrInf_digits (c0 :: c :: ds) (by simp)
            (by simp [h2.1, h2.2.1, h2.2.2])

theorem bitLenAux_spec : ∀ fuel n, n ≤ fuel → n ≠ 0 →
    2 ^ (bitLenAux fuel n - 1) ≤ n ∧ n < 2 ^ bitLenAux fuel n := by
  intro fuel
  induction fuel with
  | zero =>
      intro n h hn
      omega
  | succ f ih =>
      intro n h hn
      rw [show bitLenAux (f + 1) n = if n = 0 then 0 else bitLenAux f (n / 2) + 1 from rfl,
        if_neg hn]
      by_cases hh : n / 2 = 0
      · have h1 : n = 1 := by omega
        subst h1
        have hz : bitLenAux f (1 / 2) = 0 := by
          cases f <;> rfl
        rw [hz]
        norm_num
      · have hrec := ih (n / 2) (by omega) hh
        set L := bitLenAux f (n / 2) with hL
        have hL1 : 1 ≤ L := by
          by_contra hc
          have h0 : L = 0 := by omega
          rw [h0] at hrec
          simp at hrec
          omega
        constructor
        · have hone := hrec.1
          have h2 : 2 ^ L = 2 * 2 ^ (L - 1) := by
            calc 2 ^ L = 2 ^ (L - 1 + 1) := by congr 1; omega
              _ = 2 * 2 ^ (L - 1) := by rw [pow_succ']
          simp only [Nat.add_sub_cancel]
          rw [h2]
          omega
        · have htwo := hrec.2
          have h2 : 2 ^ (L + 1) = 2 * 2 ^ L := by rw [pow_succ']
          rw [h2]
          omega

theorem bitLen_spec (n : Nat) (hn : n ≠ 0) :
    2 ^ (bitLen n - 1) ≤ n ∧ n < 2 ^ bitLen n :=
  bitLenAux_spec n n (Nat.le_refl n) hn

theorem bitLen_one_le (n : Nat) (hn : n ≠ 0) : 1 ≤ bitLen n := by
  have hspec := bitLen_spec n hn
  by_contra hc
  have h0 : bitLen n = 0 := by omega
  rw [h0] at hspec
  simp at hspec
  omega

theorem ratFloorLog2_int (N : Nat) (hN : N ≠ 0) :
    ratFloorLog2 N 1 = (bitLen N : Int) - 1 := by
  have hspec := bitLen_spec N hN
  have hL := bitLen_one_le N hN
  have hb1 : bitLen 1 = 1 := rfl
  have hcond : pow2LeRat ((bitLen N : Int) - 1) N 1 = true := by
    simp only [pow2LeRat, if_pos (show (0 : Int) ≤ (bitLen N : Int) - 1 by omega), one_mul,
      decide_eq_true_eq]
    rw [show ((bitLen N : Int) - 1).toNat = bitLen N - 1 from by omega, jsPow_spec]
    exact hspec.1
  rw [show ratFloorLog2 N 1 =
      (if pow2LeRat ((bitLen N : Int) - (bitLen 1 : Int)) N 1 then
        (bitLen N : Int) - (bitLen 1 : Int)
      else (bitLen N : Int) - (bitLen 1 : Int) - 1) from rfl, hb1]
  norm_num [hcond]

theorem roundNearestEven_den_one (A : Nat) : roundNearestEven A 1 = A := by
  rw [show roundNearestEven A 1 =
      (if 2 * (A % 1) < 1 then A / 1
       else if 1 < 2 * (A % 1) then A / 1 + 1
       else if (A / 1) % 2 = 0 then A / 1 else A / 1 + 1) from rfl]
  rw [Nat.mod_one, Nat.div_one]
  norm_num

theorem roundPosToDouble_int (N : Nat) (h1 : N ≠ 0) (h2 : N < 2 ^ 53) :
    roundPosToDouble N 1 = DoubleVal.fin ((N : Int) * 2 ^ 1074) := by
  have hspec := bitLen_spec N h1
  have hL1 := bitLen_one_le N h1
  have hL53 : bitLen N ≤ 53 := by
    by_contra hc
    have hmono : 2 ^ 53 ≤ 2 ^ (bitLen N - 1) := Nat.pow_le_pow_right (by omega) (by omega)
    omega
  set L := bitLen N with hLdef
  rw [show roundPosToDouble N 1 =
      (let e := ratFloorLog2 N 1
       let k : Int := max (e - 52) (-1074)
       let A := N * jsPow 2 (-k).toNat
       let B := 1 * jsPow 2 k.toNat
       let n := roundNearestEven A B
       let nk : Nat × Int := if n = jsPow 2 53 then (jsPow 2 52, k + 1) else (n, k)
       let units : Nat := nk.1 * jsPow 2 (nk.2 + 1074).toNat
       if (jsPow 2 53 - 1) * jsPow 2 2045 < units then DoubleVal.posInf
       else DoubleVal.fin (units : Int)) from rfl]
  rw [ratFloorLog2_int N h1]
  simp only
  rw [show max ((L : Int) - 1 - 52) (-1074) = (L : Int) - 53 from by omega]
  rw [show (-((L : Int) - 53)).toNat = 53 - L from by omega]
  rw [show (((L : Int) - 53)).toNat = 0 from by omega]
  rw [show jsPow 2 0 = 1 from rfl, Nat.mul_one]
  rw [roundNearestEven_den_one]
  have hlt : N * jsPow 2 (53 - L) < 2 ^ 53 := by
    rw [jsPow_spec]
    calc N * 2 ^ (53 - L) < 2 ^ L * 2 ^ (53 - L) :=
          (Nat.mul_lt_mul_right (Nat.pos_pow_of_pos _ (by omega))).mpr hspec.2
      _ = 2 ^ 53 := by
          rw [← pow_add, show L + (53 - L) = 53 from by omega]
  rw [if_neg (show ¬ N * jsPow 2 (53 - L) = jsPow 2 53 from by
    rw [jsPow_spec 2 53]
    omega)]
  simp only
  rw [show ((L : Int) - 53 + 1074).toNat = L + 1021 from by omega]
  have hunits : N * jsPow 2 (53 - L) * jsPow 2 (L + 1021) = N * 2 ^ 1074 := by
    rw [jsPow_spec, jsPow_spec, Nat.mul_assoc, ← pow_add,
      show 53 - L + (L + 1021) = 1074 from by omega]
  rw [hunits]
  rw [if_neg (show ¬ (jsPow 2 53 - 1) * jsPow 2 2045 < N * 2 ^ 1074 from by
    rw [jsPow_spec, jsPow_spec]
    have hN53 : N ≤ 2 ^ 53 - 1 := by omega
    have hp : (2 : Nat) ^ 1074 ≤ 2 ^ 2045 := Nat.pow_le_pow_right (by omega) (by omega)
    push_neg
    calc N * 2 ^ 1074 ≤ (2 ^ 53 - 1) * 2 ^ 1074 := Nat.mul_le_mul_right _ hN53
      _ ≤ (2 ^ 53 - 1) * 2 ^ 2045 := Nat.mul_le_mul_left _ hp)]
  push_cast
  rfl

theorem parseVersionPart_safeDigits (cs : List Char) (h1 : cs ≠ [])
    (h2 : cs.all Char.isDigit = true) (h3 : digitsVal cs < 2 ^ 53) :
    parseVersionPart cs = DoubleVal.fin ((digitsVal cs : Int) * 2 ^ 1074) := by
  rw [show parseVersionPart cs =
      (match jsNumberOfChars cs with
       | JSExact.nan => dblZero
       | JSExact.inf neg => if neg then DoubleVal.negInf else DoubleVal.posInf
       | JSExact.val neg num den => roundToDouble neg num den) from rfl,
    jsNumberOfChars_digits cs h1 h2]
  simp only
  by_cases h0 : digitsVal cs = 0
  · rw [h0]
    rw [show roundToDouble false 0 1 = DoubleVal.fin 0 from rfl]
    norm_num
  · rw [show roundToDouble false (digitsVal cs) 1 =
        (if digitsVal cs = 0 then DoubleVal.fin 0
         else roundPosToDouble (digitsVal cs) 1) from rfl,
      if_neg h0, roundPosToDouble_int (digitsVal cs) h0 h3]

theorem cmpZeros_spec : ∀ b : List DoubleVal,
    (cmpZeros b = 0 ↔ ∀ i, b.getD i dblZero = dblZero) ∧
    (cmpZeros b = 1 ↔ ∃ i, (∀ j, j < i → b.getD j dblZero = dblZero) ∧
      dlt (b.getD i dblZero) dblZero = true) ∧
    (cmpZeros b = -1 ↔ ∃ i, (∀ j, j < i → b.getD j dblZero = dblZero) ∧
      dlt dblZero (b.getD i dblZero) = true) := by
  intro b
  induction b with
  | nil =>
      refine ⟨?_, ?_, ?_⟩ <;> simp [cmpZeros, dlt_irrefl]
  | cons y ys ih =>
      by_cases h1 : dlt y dblZero = true
      · have hz : cmpZeros (y :: ys) = 1 := by simp [cmpZeros, h1]
        refine ⟨?_, ?_, ?_⟩
        · rw [hz]
          constructor
          · intro h; exact absurd h (by decide)
          · intro h
            have h0 := h 0
            simp at h0
            rw [h0, dlt_irrefl] at h1
            cases h1
        · rw [hz]
          constructor
          · intro _
            exact ⟨0, by omega, by simpa using h1⟩
          · intro _; rfl
        · rw [hz]
          constructor
          · intro h; exact absurd h (by decide)
          · rintro ⟨i, hpre, hi⟩
            cases i with
            | zero =>
                simp at hi
                rw [dlt_asymm _ _ h1] at hi
                cases hi
            | succ i =>
                have h0 := hpre 0 (by omega)
                simp at h0
                rw [h0, dlt_irrefl] at h1
                cases h1
      · by_cases h2 : dlt dblZero y = true
        · have h1f : dlt y dblZero = false := by simpa using h1
          have hz : cmpZeros (y :: ys) = -1 := by simp [cmpZeros, h1f, h2]
          refine ⟨?_, ?_, ?_⟩
          · rw [hz]
            constructor
            · intro h; exact absurd h (by decide)
            · intro h
              have h0 := h 0
              simp at h0
              rw [h0, dlt_irrefl] at h2
              cases h2
          · rw [hz]
            constructor
            · intro h; exact absurd h (by decide)
            · rintro ⟨i, hpre, hi⟩
              cases i with
              | zero =>
                  simp at hi
                  rw [dlt_asymm _ _ h2] at hi
                  cases hi
              | succ i =>
                  have h0 := hpre 0 (by omega)
                  simp at h0
                  rw [h0, dlt_irrefl] at h2
                  cases h2
          · rw [hz]
            constructor
            · intro _
              exact ⟨0, by omega, by simpa using h2⟩
            · intro _; rfl
        · have hy : y = dblZero := dlt_total_eq y dblZero (by simpa using h1) (by simpa using h2)
          subst hy
          have hz : cmpZeros (dblZero :: ys) = cmpZeros ys := by simp [cmpZeros, dlt_irrefl]
          obtain ⟨ih0, ih1, ihm⟩ := ih
          refine ⟨?_, ?_, ?_⟩
          · rw [hz, ih0]
            constructor
            · intro h i
              cases i with
              | zero => simp
              | succ i => simpa using h i
            · intro h i
              simpa using h (i + 1)
          · rw [hz, ih1]
            constructor
            · rintro ⟨i, hpre, hi⟩
              refine ⟨i + 1, ?_, by simpa using hi⟩
              intro j hj
              cases j with
              | zero => simp
              | succ j => simpa using hpre j (by omega)
            · rintro ⟨i, hpre, hi⟩
              cases i with
              | zero =>
                  simp at hi
                  rw [dlt_irrefl] at hi
                  cases hi
              | succ i =>
                  refine ⟨i, ?_, by simpa using hi⟩
                  intro j hj
                  simpa using hpre (j + 1) (by omega)
          · rw [hz, ihm]
            constructor
            · rintro ⟨i, hpre, hi⟩
              refine ⟨i + 1, ?_, by simpa using hi⟩
              intro j hj
              cases j with
              | zero => simp
              | succ j => simpa using hpre j (by omega)
            · rintro ⟨i, hpre, hi⟩
              cases i with
              | zero =>
                  simp at hi
                  rw [dlt_irrefl] at hi
                  cases hi
              | succ i =>
                  refine ⟨i, ?_, by simpa using hi⟩
                  intro j hj
                  simpa using hpre (j + 1) (by omega)

theorem cmpParts_nil_eq (b : List DoubleVal) : cmpParts [] b = cmpZeros b := rfl

theorem cmpParts_cons_nil (x : DoubleVal) (xs : List DoubleVal) :
    cmpParts (x :: xs) [] =
      if dlt dblZero x then 1 else if dlt x dblZero then -1 else cmpParts xs [] := rfl

theorem cmpParts_cons_cons (x y : DoubleVal) (xs ys : List DoubleVal) :
    cmpParts (x :: xs) (y :: ys) =
      if dlt y x then 1 else if dlt x y then -1 else cmpParts xs ys := rfl

theorem cmpParts_eq_one_iff : ∀ (a b : List DoubleVal), cmpParts a b = 1 ↔
    ∃ i, (∀ j, j < i → a.getD j dblZero = b.getD j dblZero) ∧
      dlt (b.getD i dblZero) (a.getD i dblZero) = true := by
  intro a
  induction a with
  | nil =>
      intro b
      rw [cmpParts_nil_eq, (cmpZeros_spec b).2.1]
      constructor
      · rintro ⟨i, hpre, hi⟩
        refine ⟨i, ?_, by simpa using hi⟩
        intro j hj
        simpa using (hpre j hj).symm
      · rintro ⟨i, hpre, hi⟩
        refine ⟨i, ?_, by simpa using hi⟩
        intro j hj
        simpa using (hpre j hj).symm
  | cons x xs ih =>
      intro b
      cases b with
      | nil =>
          by_cases hx : dlt dblZero x = true
          · rw [cmpParts_cons_nil, if_pos hx]
            constructor
            · intro _
              exact ⟨0, by omega, by simpa using hx⟩
            · intro _; rfl
          · by_cases hx2 : dlt x dblZero = true
            · rw [cmpParts_cons_nil, if_neg hx, if_pos hx2]
              constructor
              · intro h; exact absurd h (by decide)
              · rintro ⟨i, hpre, hi⟩
                cases i with
                | zero =>
                    simp at hi
                    exact absurd hi hx
                | succ i =>
                    have h0 := hpre 0 (by omega)
                    simp at h0
                    rw [h0, dlt_irrefl] at hx2
                    cases hx2
            · have hx0 : x = dblZero :=
                dlt_total_eq x dblZero (by simpa using hx2) (by simpa using hx)
              subst hx0
              rw [cmpParts_cons_nil, if_neg hx, if_neg hx2, ih []]
              constructor
              · rintro ⟨i, hpre, hi⟩
                refine ⟨i + 1, ?_, by simpa using hi⟩
                intro j hj
                cases j with
                | zero => simp
                | succ j => simpa using hpre j (by omega)
              · rintro ⟨i, hpre, hi⟩
                cases i with
                | zero =>
                    simp at hi
                    rw [dlt_irrefl] at hi
                    cases hi
                | succ i =>
                    refine ⟨i, ?_, by simpa using hi⟩
                    intro j hj
                    simpa using hpre (j + 1) (by omega)
      | cons y ys =>
          by_cases h1 : dlt y x = true
          · rw [cmpParts_cons_cons, if_pos h1]
            constructor
            · intro _
              exact ⟨0, by omega, by simpa using h1⟩
            · intro _; rfl
          · by_cases h2 : dlt x y = true
            · rw [cmpParts_cons_cons, if_neg h1, if_pos h2]
              constructor
              · intro h; exact absurd h (by decide)
              · rintro ⟨i, hpre, hi⟩
                cases i with
                | zero =>
                    simp at hi
                    exact absurd hi h1
                | succ i =>
                    have h0 := hpre 0 (by omega)
                    simp at h0
                    rw [h0, dlt_irrefl] at h2
                    cases h2
            · have hxy : x = y := dlt_total_eq x y (by simpa using h2) (by simpa using h1)
              subst hxy
              rw [cmpParts_cons_cons, if_neg h1, if_neg h2, ih ys]
              constructor
              · rintro ⟨i, hpre, hi⟩
                refine ⟨i + 1, ?_, by simpa using hi⟩
                intro j hj
                cases j with
                | zero => simp
                | succ j => simpa using hpre j (by omega)
              · rintro ⟨i, hpre, hi⟩
                cases i with
                | zero =>
                    simp at hi
                    rw [dlt_irrefl] at hi
                    cases hi
                | succ i =>
                    refine ⟨i, ?_, by simpa using hi⟩
                    intro j hj
                    simpa using hpre (j + 1) (by omega)

theorem cmpParts_eq_zero_iff : ∀ (a b : List DoubleVal), cmpParts a b = 0 ↔
    ∀ i, a.getD i dblZero = b.getD i dblZero := by
  intro a
  induction a with
  | nil =>
      intro b
      rw [cmpParts_nil_eq, (cmpZeros_spec b).1]
      constructor
      · intro h i
        simpa using (h i).symm
      · intro h i
        simpa using (h i).symm
  | cons x xs ih =>
      intro b
      cases b with
      | nil =>
          by_cases hx : dlt dblZero x = true
          · rw [cmpParts_cons_nil, if_pos hx]
            constructor
            · intro h; exact absurd h (by decide)
            · intro h
              have h0 := h 0
              simp at h0
              rw [h0, dlt_irrefl] at hx
              cases hx
          · by_cases hx2 : dlt x dblZero = true
            · rw [cmpParts_cons_nil, if_neg hx, if_pos hx2]
              constructor
              · intro h; exact absurd h (by decide)
              · intro h
                have h0 := h 0
                simp at h0
                rw [h0, dlt_irrefl] at hx2
                cases hx2
            · have hx0 : x = dblZero :=
                dlt_total_eq x dblZero (by simpa using hx2) (by simpa using hx)
              subst hx0
              rw [cmpParts_cons_nil, if_neg hx, if_neg hx2, ih []]
              constructor
              · intro h i
                cases i with
                | zero => simp
                | succ i => simpa using h i
              · intro h i
                simpa using h (i + 1)
      | cons y ys =>
          by_cases h1 : dlt y x = true
          · rw [cmpParts_cons_cons, if_pos h1]
            constructor
            · intro h; exact absurd h (by decide)
            · intro h
              have h0 := h 0
              simp at h0
              rw [h0, dlt_irrefl] at h1
              cases h1
          · by_cases h2 : dlt x y = true
            · rw [cmpParts_cons_cons, if_neg h1, if_pos h2]
              constructor
              · intro h; exact absurd h (by decide)
              · intro h
                have h0 := h 0
                simp at h0
                rw [h0, dlt_irrefl] at h2
                cases h2
            · have hxy : x = y := dlt_total_eq x y (by simpa using h2) (by simpa using h1)
              subst hxy
              rw [cmpParts_cons_cons, if_neg h1, if_neg h2, ih ys]
              constructor
              · intro h i
                cases i with
                | zero => simp
                | succ i => simpa using h i
              · intro h i
                simpa using h (i + 1)

theorem cmpZeros_swap : ∀ b : List DoubleVal, cmpParts b [] = - cmpZeros b := by
  intro b
  induction b with
  | nil => decide
  | cons y ys ih =>
      rw [cmpParts_cons_nil]
      by_cases h1 : dlt y dblZero = true
      · have h2 : dlt dblZero y = false := dlt_asymm _ _ h1
        rw [if_neg (by simp [h2]), if_pos h1,
          show cmpZeros (y :: ys) = 1 from by simp [cmpZeros, h1]]
      · by_cases h2 : dlt dblZero y = true
        · rw [if_pos h2,
            show cmpZeros (y :: ys) = -1 from by
              simp [cmpZeros, (by simpa using h1 : dlt y dblZero = false), h2]]
          decide
        · have hy : y = dblZero := dlt_total_eq _ _ (by simpa using h1) (by simpa using h2)
          subst hy
          rw [if_neg h2, if_neg h1,
            show cmpZeros (dblZero :: ys) = cmpZeros ys from by simp [cmpZeros, dlt_irrefl], ih]

theorem cmpParts_swap : ∀ (a b : List DoubleVal), cmpParts a b = - cmpParts b a := by
  intro a
  induction a with
  | nil =>
      intro b
      rw [cmpParts_nil_eq, cmpZeros_swap b, neg_neg]
  | cons x xs ih =>
      intro b
      cases b with
      | nil =>
          rw [cmpParts_nil_eq, cmpZeros_swap (x :: xs)]
      | cons y ys =>
          rw [cmpParts_cons_cons, cmpParts_cons_cons]
          by_cases h1 : dlt y x = true
          · have h2 : dlt x y = false := dlt_asymm _ _ h1
            rw [if_pos h1, if_neg (by simp [h2]), if_pos h1]
            decide
          · by_cases h2 : dlt x y = true
            · rw [if_neg h1, if_pos h2, if_pos h2]
            · have hxy : x = y := dlt_total_eq _ _ (by simpa using h2) (by simpa using h1)
              subst hxy
              rw [if_neg h1, if_neg h2, if_neg h2, if_neg h1, ih ys]

theorem cmpParts_eq_negone_iff (a b : List DoubleVal) : cmpParts a b = -1 ↔
    ∃ i, (∀ j, j < i → a.getD j dblZero = b.getD j dblZero) ∧
      dlt (a.getD i dblZero) (b.getD i dblZero) = true := by
  have hswap := cmpParts_swap a b
  have hone := cmpParts_eq_one_iff b a
  constructor
  · intro h
    have hb : cmpParts b a = 1 := by omega
    obtain ⟨i, hpre, hi⟩ := hone.1 hb
    exact ⟨i, fun j hj => (hpre j hj).symm, hi⟩
  · rintro ⟨i, hpre, hi⟩
    have hb : cmpParts b a = 1 := hone.2 ⟨i, fun j hj => (hpre j hj).symm, hi⟩
    omega

theorem cmpZeros_mem : ∀ b : List DoubleVal,
    cmpZeros b = 0 ∨ cmpZeros b = 1 ∨ cmpZeros b = -1 := by
  intro b
  induction b with
  | nil => exact Or.inl rfl
  | cons y ys ih =>
      by_cases h1 : dlt y dblZero = true
      · exact Or.inr (Or.inl (by simp [cmpZeros, h1]))
      · by_cases h2 : dlt dblZero y = true
        · exact Or.inr (Or.inr (by
            simp [cmpZeros, (by simpa using h1 : dlt y dblZero = false), h2]))
        · rw [show cmpZeros (y :: ys) = cmpZeros ys from by
            simp [cmpZeros, (by simpa using h1 : dlt y dblZero = false),
              (by simpa using h2 : dlt dblZero y = false)]]
          exact ih

theorem cmpParts_mem : ∀ (a b : List DoubleVal),
    cmpParts a b = -1 ∨ cmpParts a b = 0 ∨ cmpParts a b = 1 := by
  intro a
  induction a with
  | nil =>
      intro b
      rw [cmpParts_nil_eq]
      rcases cmpZeros_mem b with h | h | h
      · exact Or.inr (Or.inl h)
      · exact Or.inr (Or.inr h)
      · exact Or.inl h
  | cons x xs ih =>
      intro b
      cases b with
      | nil =>
          rw [cmpParts_cons_nil]
          by_cases hx : dlt dblZero x = true
          · rw [if_pos hx]
            exact Or.inr (Or.inr rfl)
          · rw [if_neg hx]
            by_cases hx2 : dlt x dblZero = true
            · rw [if_pos hx2]
              exact Or.inl rfl
            · rw [if_neg hx2]
              exact ih []
      | cons y ys =>
          rw [cmpParts_cons_cons]
          by_cases h1 : dlt y x = true
          · rw [if_pos h1]
            exact Or.inr (Or.inr rfl)
          · rw [if_neg h1]
            by_cases h2 : dlt x y = true
            · rw [if_pos h2]
              exact Or.inl rfl
            · rw [if_neg h2]
              exact ih ys

/-- C4: Counterexample to the claim as stated.  The two version strings
are single segments holding distinct integers (2^53 + 1 and 2^53), so a
comparison of segments parsed as exact non-negative integers would return
1; the code parses segments with Number, both integers round to the same
IEEE-754 double, and compareVersions returns 0. -/
theorem compareVersions_rounding_counterexample :
    compareVersions "9007199254740993" "9007199254740992" = 0 ∧
    (9007199254740993 : Nat) ≠ 9007199254740992 :=
  ⟨by decide, by decide⟩

/-- C4 (amended): compareVersions splits each version string on dots and
parses each segment with Number (the StringToNumber grammar rounded to
the nearest IEEE-754 double, NaN coerced to 0 by the || 0 fallback), not
as an exact integer; positions past a version's last segment read as 0.
The result is always in {-1, 0, 1}; it is 0 iff the zero-padded parsed
segment sequences agree at every position, 1 iff at the first differing
position the first version's parsed value is larger, and -1 iff it is
smaller.  A segment that is a plain digit string with value below 2^53
is parsed exactly, so on such segments the comparison is the numeric
integer comparison; in particular compareVersions("1.2.0","1.10.0") = -1
(numeric, not lexicographic) while compareVersions("1e1","5") = 1. -/
theorem compareVersions_spec (v1 v2 : String) :
    (compareVersions v1 v2 = -1 ∨ compareVersions v1 v2 = 0 ∨ compareVersions v1 v2 = 1) ∧
    (compareVersions v1 v2 = 0 ↔
      ∀ i, (versionParts v1).getD i dblZero = (versionParts v2).getD i dblZero) ∧
    (compareVersions v1 v2 = 1 ↔
      ∃ i, (∀ j, j < i →
          (versionParts v1).getD j dblZero = (versionParts v2).getD j dblZero) ∧
        dlt ((versionParts v2).getD i dblZero) ((versionParts v1).getD i dblZero) = true) ∧
    (compareVersions v1 v2 = -1 ↔
      ∃ i, (∀ j, j < i →
          (versionParts v1).getD j dblZero = (versionParts v2).getD j dblZero) ∧
        dlt ((versionParts v1).getD i dblZero) ((versionParts v2).getD i dblZero) = true) ∧
    (∀ cs : List Char, cs ≠ [] → cs.all Char.isDigit = true → digitsVal cs < 2 ^ 53 →
      parseVersionPart cs = DoubleVal.fin ((digitsVal cs : Int) * 2 ^ 1074)) ∧
    compareVersions "1.2.0" "1.10.0" = -1 ∧
    compareVersions "1e1" "5" = 1 :=
  ⟨cmpParts_mem _ _, cmpParts_eq_zero_iff _ _, cmpParts_eq_one_iff _ _,
    cmpParts_eq_negone_iff _ _, parseVersionPart_safeDigits, by decide, by decide⟩

/-- C4 witness: the amended spec applied at "1.2.0" and "1.10.0" with the
exactness conjunct instantiated on the digit segment "7". -/
theorem compareVersions_spec_witness :
    ("7".toList ≠ [] ∧ "7".toList.all Char.isDigit = true ∧
      digitsVal "7".toList < 2 ^ 53) ∧
    parseVersionPart "7".toList = DoubleVal.fin ((digitsVal "7".toList : Int) * 2 ^ 1074) ∧
    compareVersions "1.2.0" "1.10.0" = -1 :=
  ⟨⟨by decide, by decide, by decide⟩,
    (compareVersions_spec "1.2.0" "1.10.0").2.2.2.2.1 "7".toList
      (by decide) (by decide) (by decide),
    (compareVersions_spec "1.2.0" "1.10.0").2.2.2.2.2.1⟩
